import Mathlib

/-!
# digital-footprint-awareness: input classification, IP typing, platform probing, reports

A shallow embedding of `digital.go`.

* Go `string`s are Lean `String`s; the functions that walk a string work on its list of
  characters.  Strings are taken to be valid UTF-8, so a test of a byte against an ASCII
  character in the Go code is a test of a character here.
* The functions of the Go standard library that the program calls (`strings.TrimSpace`,
  `unicode.IsSpace`, `net.ParseIP`, `net.IP.String`, `net.IP.To4`, `net.IP.IsPrivate`,
  `regexp.MatchString` for the one pattern used, `fmt.Sprintf` for the verb `%s`) are
  transcribed from the standard library of Go 1.22 and later, where `net.ParseIP` is
  `netip.ParseAddr`, refused when there is a zone, followed by `As16`.  Bytes and machine
  integers are natural numbers, reduced where the Go code narrows them.
* A function that returns `(*T, error)` returns `Except String T`; a nil slice or a nil
  `IP` is `none`.
* The HTTP transport is a parameter of `CheckUsername`: the answer to a GET as a function
  of the number of GETs issued before it and of its URL.
* The output of a report is the list of the texts it prints, one for each call of
  `fmt.Println` or `fmt.Printf`.
-/

namespace Digital

/-! ## strings / unicode -/

/-- Go `unicode.IsSpace`: the Latin-1 spaces, else the `White_Space` table. -/
def unicodeIsSpace (r : Char) : Bool :=
  let n := r.toNat
  if n ≤ 0xFF then
    n == 0x09 || n == 0x0A || n == 0x0B || n == 0x0C || n == 0x0D || n == 0x20
      || n == 0x85 || n == 0xA0
  else
    n == 0x1680 || (0x2000 ≤ n && n ≤ 0x200A) || n == 0x2028 || n == 0x2029
      || n == 0x202F || n == 0x205F || n == 0x3000

/-- Go `strings.TrimSpace` on the character list: leading, then trailing, white space
is cut off. -/
def trimSpaceChars (s : List Char) : List Char :=
  ((s.dropWhile unicodeIsSpace).reverse.dropWhile unicodeIsSpace).reverse

/-- Go `strings.TrimSpace`. -/
def TrimSpace (s : String) : String := ⟨trimSpaceChars s.data⟩

/-! ## regexp: `^[a-zA-Z0-9._]{3,30}$` -/

/-- The character class `[a-zA-Z0-9._]`. -/
def usernameClass (c : Char) : Bool :=
  ('a'.toNat ≤ c.toNat && c.toNat ≤ 'z'.toNat) || ('A'.toNat ≤ c.toNat && c.toNat ≤ 'Z'.toNat)
    || ('0'.toNat ≤ c.toNat && c.toNat ≤ '9'.toNat) || c == '.' || c == '_'

/-- Matcher for an anchored bounded repetition `^[cls]{lo,hi}$`: at the end of the text
the lower bound must have been reached, at a character the upper bound must not be used
up and the character must be in the class. -/
def matchRepeat (cls : Char → Bool) : Nat → Nat → List Char → Bool
  | lo, _, [] => lo == 0
  | lo, hi, c :: cs => 0 < hi && cls c && matchRepeat cls (lo - 1) (hi - 1) cs

/-- The compiled `usernameRegex` of `ValidatePublicInput`, applied with `MatchString`. -/
def usernameRegexMatchString (s : String) : Bool :=
  matchRepeat usernameClass 3 30 s.data

/-! ## net/netip: parsing -/

/-- A `netip.Addr`: the 16 bytes of the address (an IPv4 address is held in its
IPv4-mapped form, as in `netip`), whether it is an IPv4 address, and the zone. -/
structure Addr where
  is4 : Bool
  bytes : List Nat
  zone : List Char
deriving DecidableEq, Repr

/-- The test `c >= '0' && c <= '9'`. -/
def isDigit (c : Char) : Bool := '0'.toNat ≤ c.toNat && c.toNat ≤ '9'.toNat

/-- The loop of `netip.parseIPv4Fields` over the remaining characters.  `prev` is
`s[i-1]` (`none` when `i == 0`); `i == len(s)-1` is "nothing follows the character". -/
def parseIPv4FieldsLoop :
    Option Char → List Char → Nat → Nat → Nat → List Nat → Option (List Nat)
  | _, [], val, pos, _, fields =>
    if pos < 3 then none else some (fields.set 3 (val % 256))
  | prev, c :: rest, val, pos, digLen, fields =>
    if isDigit c then
      if digLen = 1 ∧ val = 0 then none
      else
        let val1 := val * 10 + (c.toNat - '0'.toNat)
        if val1 > 255 then none
        else parseIPv4FieldsLoop (some c) rest val1 pos (digLen + 1) fields
    else if c = '.' then
      if prev = none ∨ rest = [] ∨ prev = some '.' then none
      else if pos = 3 then none
      else parseIPv4FieldsLoop (some c) rest 0 (pos + 1) 0 (fields.set pos (val % 256))
    else none

/-- Go `netip.parseIPv4Fields` on the substring `s`: the four octets, or `none` for an
error. -/
def parseIPv4Fields (s : List Char) : Option (List Nat) :=
  parseIPv4FieldsLoop none s 0 0 0 [0, 0, 0, 0]

/-- Go `netip.AddrFrom4`: the address is stored IPv4-mapped. -/
def AddrFrom4 (f : List Nat) : Addr :=
  ⟨true, [0, 0, 0, 0, 0, 0, 0, 0, 0, 0, 0xff, 0xff] ++ f, []⟩

/-- Go `netip.parseIPv4`. -/
def parseIPv4 (s : List Char) : Option Addr :=
  (parseIPv4Fields s).map AddrFrom4

/-- Value of a hexadecimal digit, `none` for any other character. -/
def hexVal (c : Char) : Option Nat :=
  if '0'.toNat ≤ c.toNat ∧ c.toNat ≤ '9'.toNat then some (c.toNat - '0'.toNat)
  else if 'a'.toNat ≤ c.toNat ∧ c.toNat ≤ 'f'.toNat then some (c.toNat - 'a'.toNat + 10)
  else if 'A'.toNat ≤ c.toNat ∧ c.toNat ≤ 'F'.toNat then some (c.toNat - 'A'.toNat + 10)
  else none

/-- The inner loop of `netip.parseIPv6` reading one hexadecimal group: `none` for an
error, else the accumulated value, the number of digits read and the rest of the string.
`acc` is a `uint32`. -/
def scanHex : List Char → Nat → Nat → Option (Nat × Nat × List Char)
  | [], off, acc => some (acc, off, [])
  | c :: cs, off, acc =>
    match hexVal c with
    | none => some (acc, off, c :: cs)
    | some d =>
      let acc1 := (acc * 16 + d) % 4294967296
      if off > 3 then none
      else if acc1 > 65535 then none
      else scanHex cs (off + 1) acc1

/-- Writes four octets at `ip[i:i+4]`. -/
def writeFields (ip : List Nat) (i : Nat) (f : List Nat) : List Nat :=
  (((ip.set i (f.getD 0 0)).set (i + 1) (f.getD 1 0)).set (i + 2) (f.getD 2 0)).set (i + 3)
    (f.getD 3 0)

/-- The main loop `for i < 16` of `netip.parseIPv6`.  The state is the rest of the
string, `i`, the position of the ellipsis (`none` for `-1`) and the 16 bytes; the result
is the state at the exit of the loop, or `none` for an error.  Each turn that continues
adds 2 to `i`, so 8 turns are enough. -/
def parseIPv6Loop :
    Nat → List Char → Nat → Option Nat → List Nat →
      Option (List Char × Nat × Option Nat × List Nat)
  | 0, s, i, ellipsis, ip => some (s, i, ellipsis, ip)
  | fuel + 1, s, i, ellipsis, ip =>
    if ¬ i < 16 then some (s, i, ellipsis, ip)
    else
      match scanHex s 0 0 with
      | none => none
      | some (acc, off, rest) =>
        if off = 0 then none
        else if rest.head? = some '.' then
          if ellipsis = none ∧ i ≠ 12 then none
          else if i + 4 > 16 then none
          else
            match parseIPv4Fields s with
            | none => none
            | some f => some ([], i + 4, ellipsis, writeFields ip i f)
        else
          let ip1 := (ip.set i (acc / 256 % 256)).set (i + 1) (acc % 256)
          let i1 := i + 2
          if rest = [] then some ([], i1, ellipsis, ip1)
          else if rest.head? ≠ some ':' then none
          else if rest.length = 1 then none
          else
            let s1 := rest.tail
            if s1.head? = some ':' then
              if ellipsis ≠ none then none
              else
                let s2 := s1.tail
                if s2 = [] then some ([], i1, some i1, ip1)
                else parseIPv6Loop fuel s2 i1 (some i1) ip1
            else parseIPv6Loop fuel s1 i1 ellipsis ip1

/-- The loop `for j := i - 1; j >= ellipsis; j-- { ip[j+n] = ip[j] }`, with `k` the
number of turns left (`j = ellipsis + k - 1`). -/
def shiftUp (n e : Nat) : Nat → List Nat → List Nat
  | 0, ip => ip
  | k + 1, ip => shiftUp n e k (ip.set (e + k + n) (ip.getD (e + k) 0))

/-- The call `clear(ip[e : e+n])`. -/
def clearRange (e : Nat) : Nat → List Nat → List Nat
  | 0, ip => ip
  | n + 1, ip => clearRange (e + 1) n (ip.set e 0)

/-- Splits at the first `%`: the part before it and, when there is one, the part after
it (`bytealg.IndexByteString(s, '%')` and the two slices). -/
def splitZone : List Char → List Char × Option (List Char)
  | [] => ([], none)
  | c :: cs =>
    if c = '%' then ([], some cs)
    else
      let r := splitZone cs
      (c :: r.1, r.2)

/-- The end of `netip.parseIPv6`, after its main loop: the whole string must have been
used; an address that is too short is filled with zeros at the ellipsis, and an ellipsis
in a full address is an error. -/
def parseIPv6Finish (zone : List Char) :
    Option (List Char × Nat × Option Nat × List Nat) → Option Addr
  | none => none
  | some (s1, i, ellipsis, ip) =>
    if s1 ≠ [] then none
    else if i < 16 then
      match ellipsis with
      | none => none
      | some e =>
        let n := 16 - i
        some ⟨false, clearRange e n (shiftUp n e (i - e) ip), zone⟩
    else if ellipsis ≠ none then none
    else some ⟨false, ip, zone⟩

/-- Go `netip.parseIPv6`. -/
def parseIPv6 (inp : List Char) : Option Addr :=
  let sz := splitZone inp
  if sz.2 = some [] then none
  else
    let zone := sz.2.getD []
    let ip0 := List.replicate 16 0
    let lead := decide (sz.1.length ≥ 2) && sz.1.head? == some ':' && sz.1.tail.head? == some ':'
    let s := if lead then sz.1.drop 2 else sz.1
    let ellipsis0 : Option Nat := if lead then some 0 else none
    if lead ∧ s = [] then some ⟨false, ip0, zone⟩
    else parseIPv6Finish zone (parseIPv6Loop 8 s 0 ellipsis0 ip0)

/-- The scan of `netip.ParseAddr` for the first `.`, `:` or `%` of the string. -/
def parseAddrScan (s : List Char) : List Char → Option Addr
  | [] => none
  | c :: cs =>
    if c = '.' then parseIPv4 s
    else if c = ':' then parseIPv6 s
    else if c = '%' then none
    else parseAddrScan s cs

/-- Go `netip.ParseAddr`. -/
def ParseAddr (s : List Char) : Option Addr := parseAddrScan s s

/-- A `net.IP`: a byte slice. -/
abbrev IP := List Nat

/-- Go `net.ParseIP` (`none` is the nil IP): `netip.ParseAddr`, refused when there is a
zone, then `As16`. -/
def ParseIP (s : String) : Option IP :=
  match ParseAddr s.data with
  | none => none
  | some a => if a.zone ≠ [] then none else some a.bytes

/-! ## net/netip: printing -/

/-- The digit table `"0123456789abcdef"` of `netip`. -/
def digits : List Char :=
  ['0', '1', '2', '3', '4', '5', '6', '7', '8', '9', 'a', 'b', 'c', 'd', 'e', 'f']

/-- Go `netip.appendDecimal` of a `uint8`. -/
def appendDecimal (b : List Char) (x : Nat) : List Char :=
  let b1 := if x ≥ 100 then b ++ [digits.getD (x / 100) '0'] else b
  let b2 := if x ≥ 10 then b1 ++ [digits.getD (x / 10 % 10) '0'] else b1
  b2 ++ [digits.getD (x % 10) '0']

/-- Go `netip.appendHex` of a `uint16`. -/
def appendHex (b : List Char) (x : Nat) : List Char :=
  let b1 := if x ≥ 0x1000 then b ++ [digits.getD (x / 4096) '0'] else b
  let b2 := if x ≥ 0x100 then b1 ++ [digits.getD (x / 256 % 16) '0'] else b1
  let b3 := if x ≥ 0x10 then b2 ++ [digits.getD (x / 16 % 16) '0'] else b2
  b3 ++ [digits.getD (x % 16) '0']

/-- Go `Addr.appendTo4` on the four octets. -/
def appendTo4 (ret : List Char) (p : List Nat) : List Char :=
  let r0 := appendDecimal ret (p.getD 0 0)
  let r1 := appendDecimal (r0 ++ ['.']) (p.getD 1 0)
  let r2 := appendDecimal (r1 ++ ['.']) (p.getD 2 0)
  appendDecimal (r2 ++ ['.']) (p.getD 3 0)

/-- Go `Addr.v6u16`: the `i`-th 16-bit group of the 16 bytes. -/
def v6u16 (ip : List Nat) (i : Nat) : Nat :=
  ip.getD (2 * i) 0 * 256 + ip.getD (2 * i + 1) 0

/-- The inner loop `for j < 8 && ip.v6u16(j) == 0 { j++ }` of `appendTo6`. -/
def zeroRunEnd (ip : List Nat) : Nat → Nat → Nat
  | 0, j => j
  | fuel + 1, j => if j < 8 ∧ v6u16 ip j = 0 then zeroRunEnd ip fuel (j + 1) else j

/-- The first loop of `appendTo6`: the leftmost longest run of at least two zero
groups, as `(zeroStart, zeroEnd)`; `(255, 255)` when there is none. -/
def findZeroRun (ip : List Nat) : Nat → Nat → Nat → Nat → Nat × Nat
  | 0, _, zeroStart, zeroEnd => (zeroStart, zeroEnd)
  | fuel + 1, i, zeroStart, zeroEnd =>
    if ¬ i < 8 then (zeroStart, zeroEnd)
    else
      let j := zeroRunEnd ip 8 i
      let l := j - i
      if l ≥ 2 ∧ l > zeroEnd - zeroStart then findZeroRun ip fuel (i + 1) i j
      else findZeroRun ip fuel (i + 1) zeroStart zeroEnd

/-- The second loop of `appendTo6`, which writes the groups. -/
def appendGroups (ip : List Nat) (zeroStart zeroEnd : Nat) : Nat → Nat → List Char → List Char
  | 0, _, ret => ret
  | fuel + 1, i, ret =>
    if ¬ i < 8 then ret
    else if i = zeroStart then
      let ret1 := ret ++ [':', ':']
      if zeroEnd ≥ 8 then ret1
      else appendGroups ip zeroStart zeroEnd fuel (zeroEnd + 1) (appendHex ret1 (v6u16 ip zeroEnd))
    else if i > 0 then
      appendGroups ip zeroStart zeroEnd fuel (i + 1) (appendHex (ret ++ [':']) (v6u16 ip i))
    else appendGroups ip zeroStart zeroEnd fuel (i + 1) (appendHex ret (v6u16 ip i))

/-- Go `Addr.string6` of an address without zone. -/
def string6 (ip : List Nat) : List Char :=
  let z := findZeroRun ip 8 0 255 255
  appendGroups ip z.1 z.2 8 0 []

/-- Go `isZeros(ip[0:10])`, `ip[10] == 0xff`, `ip[11] == 0xff` on 16 bytes: the test of
`IP.To4` and of `Addr.Is4In6`. -/
def isMapped4 (ip : List Nat) : Bool :=
  (ip.take 10).all (fun b => b == 0) && ip.getD 10 0 == 0xff && ip.getD 11 0 == 0xff

/-- Go `net.IP.To4` (`none` is nil). -/
def To4 (ip : IP) : Option IP :=
  if ip.length = 4 then some ip
  else if ip.length = 16 ∧ isMapped4 ip then some (ip.drop 12)
  else none

/-- Go `netip.AddrFrom16(ip).String()`: `::ffff:a.b.c.d` for an IPv4-mapped address,
else `string6`. -/
def addr16String (ip : List Nat) : List Char :=
  if isMapped4 ip then appendTo4 [':', ':', 'f', 'f', 'f', 'f', ':'] (ip.drop 12)
  else string6 ip

/-- Go `hexString` of `net`: two lower-case hexadecimal digits for each byte. -/
def hexString (b : List Nat) : List Char :=
  b.flatMap (fun x => [digits.getD (x / 16 % 16) '0', digits.getD (x % 16) '0'])

/-- Go `net.IP.String`. -/
def IP.String (ip : IP) : String :=
  if ip.length = 0 then "<nil>"
  else if ip.length ≠ 4 ∧ ip.length ≠ 16 then ⟨'?' :: hexString ip⟩
  else
    match To4 ip with
    | some p4 => ⟨appendTo4 [] p4⟩
    | none => ⟨addr16String ip⟩

/-- Go `net.IP.IsPrivate`: RFC 1918 for an IPv4 address, RFC 4193 (`fc00::/7`) for an
IPv6 address.  `b & 0xf0` is `b / 16 * 16`, `b & 0xfe` is `b / 2 * 2`. -/
def IP.IsPrivate (ip : IP) : Bool :=
  match To4 ip with
  | some ip4 =>
    ip4.getD 0 0 == 10 || (ip4.getD 0 0 == 172 && ip4.getD 1 0 / 16 * 16 == 16)
      || (ip4.getD 0 0 == 192 && ip4.getD 1 0 == 168)
  | none => ip.length == 16 && ip.getD 0 0 / 2 * 2 == 0xfc

/-! ## digital.go: input validation -/

/-- The Go type `InputType` with its two constants `InputIP` and `InputUsername`. -/
inductive InputType where
  | InputIP
  | InputUsername
deriving DecidableEq, Repr

/-- The Go struct `ValidationResult` (`Typ` is its field `Type`). -/
structure ValidationResult where
  Typ : InputType
  Value : String
deriving DecidableEq, Repr

/-- The message of the first error of `ValidatePublicInput`. -/
def errEmpty : String := "input is empty"

/-- The message of the last error of `ValidatePublicInput`. -/
def errUnsupported : String := "input is neither a valid IP address nor a supported username"

/-- Go `ValidatePublicInput`: `Except.error msg` is `(nil, errors.New(msg))`. -/
def ValidatePublicInput (raw : String) : Except String ValidationResult :=
  let clean := TrimSpace raw
  if clean = "" then Except.error errEmpty
  else
    match ParseIP clean with
    | some ip => Except.ok ⟨InputType.InputIP, IP.String ip⟩
    | none =>
      if usernameRegexMatchString clean then Except.ok ⟨InputType.InputUsername, clean⟩
      else Except.error errUnsupported

/-! ## digital.go: network type -/

/-- Go `IPNetworkType`. -/
def IPNetworkType (ip : String) : String :=
  match ParseIP ip with
  | none => "Unknown"
  | some parsed =>
    if IP.IsPrivate parsed then "Private IP (Local Network)"
    else "Public IP (ISP / Hosting Provider)"

/-! ## digital.go: platform probe -/

/-- The Go struct `Platform`. -/
structure Platform where
  Name : String
  URL : String
deriving DecidableEq, Repr

/-- The Go variable `platforms`. -/
def platforms : List Platform :=
  [⟨"GitHub", "https://github.com/%s"⟩,
   ⟨"Twitter/X", "https://x.com/%s"⟩,
   ⟨"Instagram", "https://www.instagram.com/%s"⟩,
   ⟨"Reddit", "https://www.reddit.com/user/%s"⟩,
   ⟨"Medium", "https://medium.com/@%s"⟩,
   ⟨"Dev.to", "https://dev.to/%s"⟩]

/-- Go `fmt.Sprintf(format, arg)` for a format whose only verb is one `%s`, as all the
templates of `platforms` are: the text before the verb, the operand, the text after. -/
def sprintfChars : List Char → List Char → List Char
  | [], _ => []
  | '%' :: 's' :: rest, arg => arg ++ rest
  | c :: rest, arg => c :: sprintfChars rest arg

/-- Go `fmt.Sprintf` with one string operand. -/
def Sprintf (format arg : String) : String := ⟨sprintfChars format.data arg.data⟩

/-- Outcome of `client.Get(ctx, url)`: an error, or a response with its `StatusCode`. -/
inductive GetResult where
  | err
  | resp (StatusCode : Nat)
deriving DecidableEq, Repr

/-- State of the loop of `CheckUsername`: the slice `found`, and the URLs of the GETs
issued so far, in order (the trace of the calls of `client.Get`). -/
structure ProbeState where
  found : List String
  requests : List String
deriving DecidableEq, Repr

/-- The loop `for _, p := range platforms` of `CheckUsername`.  The transport `get`
answers a GET from the number of GETs issued before it and its URL, which covers every
behaviour of the network and of the shared deadline in one run. -/
def CheckUsernameLoop (get : Nat → String → GetResult) (username : String) :
    List Platform → ProbeState → ProbeState
  | [], st => st
  | p :: ps, st =>
    let url := Sprintf p.URL username
    match get st.requests.length url with
    | GetResult.err =>
      CheckUsernameLoop get username ps ⟨st.found, st.requests ++ [url]⟩
    | GetResult.resp code =>
      if code = 200 then
        CheckUsernameLoop get username ps ⟨st.found ++ [p.Name], st.requests ++ [url]⟩
      else CheckUsernameLoop get username ps ⟨st.found, st.requests ++ [url]⟩

/-- The run of `CheckUsername`: the final `found` and the GETs issued. -/
def CheckUsernameRun (get : Nat → String → GetResult) (username : String) : ProbeState :=
  CheckUsernameLoop get username platforms ⟨[], []⟩

/-- Go `CheckUsername`. -/
def CheckUsername (get : Nat → String → GetResult) (username : String) : List String :=
  (CheckUsernameRun get username).found

/-! ## digital.go: reports

The output of a report is the list of the texts printed by its `fmt.Println` and
`fmt.Printf` calls, in order, each without its final newline. -/

/-- Go `UsernameExposure`. -/
def UsernameExposure (found : List String) : List String :=
  let count := found.length
  let out := ["\n[ Username Exposure ]", "Found on " ++ toString count ++ " platform(s)"]
  let out :=
    if count ≥ 5 then out ++ ["Exposure Level: HIGH"]
    else if count ≥ 2 then out ++ ["Exposure Level: MODERATE"]
    else out ++ ["Exposure Level: LOW"]
  let out :=
    if count ≥ 2 then
      out ++ ["- Reusing the same username allows strangers to link profiles.",
        "- This can reveal habits, interests, or identity patterns."]
    else out
  if count ≥ 4 then out ++ ["- High reuse increases impersonation and scam risk."] else out

/-- Go `IPExposure`; `fmt.Println(a, b)` puts one space between its operands. -/
def IPExposure (ip : String) (rdns : List String) : List String :=
  let out := ["\n[ IP Exposure ]", "Network Type:" ++ " " ++ IPNetworkType ip]
  let out :=
    if rdns.length > 0 then
      out ++ ["Reverse DNS Records Found:"] ++ rdns.map (fun h => " -" ++ " " ++ h)
        ++ ["Exposure Level: MODERATE", "- Reverse DNS can reveal infrastructure patterns."]
    else out ++ ["No reverse DNS records found.", "Exposure Level: LOW"]
  if IPNetworkType ip = "Public IP (ISP / Hosting Provider)" then
    out ++ ["- Public IPs reveal ISP and approximate region.",
      "- Often used in geo-targeted scams and tracking."]
  else out

/-! ## Vocabulary of the statements -/

/-- An exposure-level line of a report: a printed text that starts with
`Exposure Level:`. -/
def isLevelLine (l : String) : Bool := "Exposure Level:".data.isPrefixOf l.data

/-- The exposure-level line for a number of platforms, as the specification words it:
HIGH from 5, MODERATE from 2 to 4, LOW below 2. -/
def levelLineOf (count : Nat) : String :=
  if 5 ≤ count then "Exposure Level: HIGH"
  else if 2 ≤ count ∧ count < 5 then "Exposure Level: MODERATE"
  else "Exposure Level: LOW"

/-- The two ISP/region warning lines of `IPExposure`. -/
def ispWarning : List String :=
  ["- Public IPs reveal ISP and approximate region.",
   "- Often used in geo-targeted scams and tracking."]

/-- The printed form of one 16-bit group: `appendHex` on the empty buffer. -/
def hexStr (x : Nat) : List Char := appendHex [] x

/-- The function `parseIPv6` on a string without `%`: its main loop, started after a leading
`::` when there is one, then its final checks. -/
def parseIPv6NoZone (out : List Char) : Option Addr :=
  if out.head? = some ':' ∧ out.tail.head? = some ':' then
    (if out.drop 2 = [] then some ⟨false, List.replicate 16 0, []⟩
     else parseIPv6Finish [] (parseIPv6Loop 8 (out.drop 2) 0 (some 0) (List.replicate 16 0)))
  else parseIPv6Finish [] (parseIPv6Loop 8 out 0 none (List.replicate 16 0))

/-- The 16 bytes of the eight groups of an address, high byte first. -/
def regroup (ip : List Nat) : List Nat :=
  [v6u16 ip 0 / 256 % 256, v6u16 ip 0 % 256, v6u16 ip 1 / 256 % 256, v6u16 ip 1 % 256,
   v6u16 ip 2 / 256 % 256, v6u16 ip 2 % 256, v6u16 ip 3 / 256 % 256, v6u16 ip 3 % 256,
   v6u16 ip 4 / 256 % 256, v6u16 ip 4 % 256, v6u16 ip 5 / 256 % 256, v6u16 ip 5 % 256,
   v6u16 ip 6 / 256 % 256, v6u16 ip 6 % 256, v6u16 ip 7 / 256 % 256, v6u16 ip 7 % 256]

/-- The private ranges as the RFCs word them, on the 16 bytes of an address: for an
IPv4 (IPv4-mapped) address `10.0.0.0/8`, `172.16.0.0/12` (second octet 16 to 31) and
`192.168.0.0/16` of RFC 1918, for any other address `fc00::/7` of RFC 4193 (first byte
`0xfc` or `0xfd`). -/
def inPrivateRange (b : List Nat) : Bool :=
  if isMapped4 b then
    b.getD 12 0 == 10 || (b.getD 12 0 == 172 && decide (16 ≤ b.getD 13 0) && decide (b.getD 13 0 ≤ 31))
      || (b.getD 12 0 == 192 && b.getD 13 0 == 168)
  else b.getD 0 0 == 0xfc || b.getD 0 0 == 0xfd

/-- What the parser needs of the chosen run: there is none, or it is a run of at least
two groups, inside the address, all of them zero. -/
def ZeroRunOk (ip : List Nat) (zs ze : Nat) : Prop :=
  (zs = 255 ∧ ze = 255) ∨ (zs + 2 ≤ ze ∧ ze ≤ 8 ∧ ∀ k, zs ≤ k → k < ze → v6u16 ip k = 0)

/-- A byte slice of the given length. -/
def IsBytes (n : Nat) (l : List Nat) : Prop := l.length = n ∧ ∀ b ∈ l, b < 256

/-! ## Lemmas: strings -/

theorem dropWhile_all_false {p : Char → Bool} :
    ∀ l : List Char, (∀ c ∈ l, p c = false) → l.dropWhile p = l
  | [], _ => rfl
  | a :: t, h => by
    have ha : p a = false := h a (List.mem_cons_self a t)
    simp [List.dropWhile, ha]

theorem dropWhile_all_iff {p : Char → Bool} (l : List Char) :
    (∀ c ∈ l.dropWhile p, p c = true) ↔ ∀ c ∈ l, p c = true := by
  constructor
  · intro h
    induction l with
    | nil => simp
    | cons a t ih =>
      by_cases ha : p a = true
      · intro c hc
        rcases List.mem_cons.mp hc with rfl | hc
        · exact ha
        · exact ih (by simpa [List.dropWhile, ha] using h) c hc
      · have := h a (by simp [List.dropWhile, ha])
        exact absurd this ha
  · intro h c hc
    exact h c ((List.dropWhile_sublist p).subset hc)

theorem trimSpaceChars_eq_nil_iff (s : List Char) :
    trimSpaceChars s = [] ↔ ∀ c ∈ s, unicodeIsSpace c = true := by
  unfold trimSpaceChars
  rw [List.reverse_eq_nil_iff, List.dropWhile_eq_nil_iff]
  simp only [List.mem_reverse]
  exact dropWhile_all_iff s

theorem trimSpaceChars_of_no_space (s : List Char)
    (h : ∀ c ∈ s, unicodeIsSpace c = false) : trimSpaceChars s = s := by
  unfold trimSpaceChars
  rw [dropWhile_all_false s h, dropWhile_all_false s.reverse, List.reverse_reverse]
  intro c hc
  exact h c (List.mem_reverse.mp hc)

theorem string_eq_empty_iff (s : String) : s = "" ↔ s.data = [] := by
  rw [String.ext_iff]

/-! ## Lemmas: the username pattern -/

theorem matchRepeat_iff (cls : Char → Bool) :
    ∀ (s : List Char) (lo hi : Nat),
      matchRepeat cls lo hi s = true ↔ lo ≤ s.length ∧ s.length ≤ hi ∧ ∀ c ∈ s, cls c = true
  | [], lo, hi => by simp [matchRepeat]
  | a :: t, lo, hi => by
    simp only [matchRepeat, Bool.and_eq_true, decide_eq_true_eq, matchRepeat_iff cls t,
      List.length_cons, List.mem_cons, forall_eq_or_imp]
    constructor
    · rintro ⟨⟨h0, ha⟩, h1, h2, h3⟩
      exact ⟨by omega, by omega, ha, h3⟩
    · rintro ⟨h1, h2, ha, h3⟩
      exact ⟨⟨by omega, ha⟩, by omega, by omega, h3⟩

/-- The class `[a-zA-Z0-9._]` is: an ASCII letter, an ASCII digit, `.` or `_`. -/
theorem usernameClass_iff (c : Char) :
    usernameClass c = true ↔ (c.isAlphanum = true ∨ c = '.' ∨ c = '_') := by
  have e1 : ('a' : Char).toNat = 97 := rfl
  have e2 : ('z' : Char).toNat = 122 := rfl
  have e3 : ('A' : Char).toNat = 65 := rfl
  have e4 : ('Z' : Char).toNat = 90 := rfl
  have e5 : ('0' : Char).toNat = 48 := rfl
  have e6 : ('9' : Char).toNat = 57 := rfl
  have f1 : (UInt32.toBitVec 65).toNat = 65 := rfl
  have f2 : (UInt32.toBitVec 90).toNat = 90 := rfl
  have f3 : (UInt32.toBitVec 97).toNat = 97 := rfl
  have f4 : (UInt32.toBitVec 122).toNat = 122 := rfl
  have f5 : (UInt32.toBitVec 48).toNat = 48 := rfl
  have f6 : (UInt32.toBitVec 57).toNat = 57 := rfl
  have hc : c.toNat = c.val.toBitVec.toNat := rfl
  simp only [usernameClass, e1, e2, e3, e4, e5, e6, hc, Char.isAlphanum, Char.isAlpha,
    Char.isUpper, Char.isLower, Char.isDigit, Bool.or_eq_true, Bool.and_eq_true,
    decide_eq_true_eq, beq_iff_eq, UInt32.le_def, BitVec.le_def, f1, f2, f3, f4, f5, f6]
  tauto

theorem not_space_of_printable (c : Char) (h1 : 33 ≤ c.toNat) (h2 : c.toNat ≤ 126) :
    unicodeIsSpace c = false := by
  unfold unicodeIsSpace
  have h3 : c.toNat ≤ 255 := by omega
  simp only [h3, if_true]
  simp only [Bool.or_eq_false_iff, beq_eq_false_iff_ne, ne_eq]
  omega

theorem usernameClass_toNat (c : Char) (h : usernameClass c = true) :
    33 ≤ c.toNat ∧ c.toNat ≤ 126 := by
  have e1 : ('a' : Char).toNat = 97 := rfl
  have e2 : ('z' : Char).toNat = 122 := rfl
  have e3 : ('A' : Char).toNat = 65 := rfl
  have e4 : ('Z' : Char).toNat = 90 := rfl
  have e5 : ('0' : Char).toNat = 48 := rfl
  have e6 : ('9' : Char).toNat = 57 := rfl
  simp only [usernameClass, e1, e2, e3, e4, e5, e6, Bool.or_eq_true, Bool.and_eq_true,
    decide_eq_true_eq, beq_iff_eq] at h
  rcases h with (((h | h) | h) | h) | h
  · omega
  · omega
  · omega
  · subst h; decide
  · subst h; decide

theorem usernameRegex_iff (s : String) :
    usernameRegexMatchString s = true ↔
      3 ≤ s.length ∧ s.length ≤ 30 ∧ ∀ c ∈ s.data, c.isAlphanum = true ∨ c = '.' ∨ c = '_' := by
  unfold usernameRegexMatchString
  rw [matchRepeat_iff]
  have hl : s.length = s.data.length := by cases s; rfl
  simp only [usernameClass_iff, hl]

theorem trimSpace_of_usernameRegex (s : String) (h : usernameRegexMatchString s = true) :
    TrimSpace s = s := by
  unfold usernameRegexMatchString at h
  rw [matchRepeat_iff] at h
  rw [String.ext_iff]
  show trimSpaceChars s.data = s.data
  apply trimSpaceChars_of_no_space
  intro c hc
  have := usernameClass_toNat c (h.2.2 c hc)
  exact not_space_of_printable c this.1 this.2

theorem usernameRegex_ne_empty (s : String) (h : usernameRegexMatchString s = true) :
    s ≠ "" := by
  intro he
  subst he
  revert h
  decide

/-! ## Lemmas: the four exits of `ValidatePublicInput` -/

/-- What `ValidatePublicInput` returns, by the three tests of its body. -/
theorem validate_cases (raw : String) :
    (TrimSpace raw = "" ∧ ValidatePublicInput raw = Except.error errEmpty) ∨
    (TrimSpace raw ≠ "" ∧ ∃ ip, ParseIP (TrimSpace raw) = some ip ∧
      ValidatePublicInput raw = Except.ok ⟨InputType.InputIP, IP.String ip⟩) ∨
    (TrimSpace raw ≠ "" ∧ ParseIP (TrimSpace raw) = none ∧
      usernameRegexMatchString (TrimSpace raw) = true ∧
      ValidatePublicInput raw = Except.ok ⟨InputType.InputUsername, TrimSpace raw⟩) ∨
    (TrimSpace raw ≠ "" ∧ ParseIP (TrimSpace raw) = none ∧
      usernameRegexMatchString (TrimSpace raw) = false ∧
      ValidatePublicInput raw = Except.error errUnsupported) := by
  unfold ValidatePublicInput
  by_cases h1 : TrimSpace raw = ""
  · left
    simp [h1]
  · right
    cases h2 : ParseIP (TrimSpace raw) with
    | some ip =>
      left
      simp [h1, h2]
    | none =>
      right
      cases h3 : usernameRegexMatchString (TrimSpace raw) with
      | true =>
        left
        simp [h1, h2, h3]
      | false =>
        right
        simp [h1, h2, h3]

/-! ## Lemmas: the digit table -/

theorem digits_getD_facts (k : Nat) (hk : k < 16) :
    hexVal (digits.getD k '0') = some k ∧
    digits.getD k '0' ≠ '.' ∧ digits.getD k '0' ≠ ':' ∧ digits.getD k '0' ≠ '%' ∧
    33 ≤ (digits.getD k '0').toNat ∧ (digits.getD k '0').toNat ≤ 126 := by
  interval_cases k <;> decide

theorem digits_getD_dec (k : Nat) (hk : k < 10) :
    isDigit (digits.getD k '0') = true ∧ (digits.getD k '0').toNat - '0'.toNat = k := by
  interval_cases k <;> decide

theorem appendDecimal_eq (b : List Char) (x : Nat) :
    appendDecimal b x = b ++ appendDecimal [] x := by
  unfold appendDecimal
  by_cases h1 : x ≥ 100 <;> by_cases h2 : x ≥ 10 <;> simp [h1, h2]

theorem appendHex_eq (b : List Char) (x : Nat) :
    appendHex b x = b ++ appendHex [] x := by
  unfold appendHex
  by_cases h1 : x ≥ 0x1000 <;> by_cases h2 : x ≥ 0x100 <;> by_cases h3 : x ≥ 0x10 <;>
    simp [h1, h2, h3]

/-! ## Lemmas: reading back a printed IPv4 address -/

theorem v4_digit_step (k : Nat) (hk : k < 10) (prev : Option Char) (rest : List Char)
    (val pos digLen : Nat) (fields : List Nat) :
    parseIPv4FieldsLoop prev (digits.getD k '0' :: rest) val pos digLen fields =
      if digLen = 1 ∧ val = 0 then none
      else if val * 10 + k > 255 then none
      else parseIPv4FieldsLoop (some (digits.getD k '0')) rest (val * 10 + k) pos (digLen + 1)
        fields := by
  obtain ⟨h1, h2⟩ := digits_getD_dec k hk
  rw [parseIPv4FieldsLoop]
  simp only [h1, h2, if_true]

/-- Reading the decimal form of an octet: the loop arrives after it with `val` the
octet and `prev` a digit. -/
theorem v4_octet (a : Nat) (ha : a < 256) (prev : Option Char) (tail : List Char)
    (pos : Nat) (fields : List Nat) :
    ∃ c d, c ≠ '.' ∧
      parseIPv4FieldsLoop prev (appendDecimal [] a ++ tail) 0 pos 0 fields =
        parseIPv4FieldsLoop (some c) tail a pos d fields := by
  have f0 := (digits_getD_facts (a % 10) (by omega)).2.1
  unfold appendDecimal
  by_cases h100 : a ≥ 100
  · have h10 : a ≥ 10 := by omega
    refine ⟨digits.getD (a % 10) '0', 3, f0, ?_⟩
    simp only [h100, h10, if_true, List.nil_append, List.cons_append, List.append_assoc]
    rw [v4_digit_step _ (by omega), v4_digit_step _ (by omega), v4_digit_step _ (by omega)]
    have e1 : ¬ (0 = 1 ∧ 0 = 0) := by omega
    have e2 : ¬ (0 * 10 + a / 100 > 255) := by omega
    have e3 : ¬ (0 + 1 = 1 ∧ 0 * 10 + a / 100 = 0) := by omega
    have e4 : ¬ ((0 * 10 + a / 100) * 10 + a / 10 % 10 > 255) := by omega
    have e5 : ¬ (0 + 1 + 1 = 1 ∧ (0 * 10 + a / 100) * 10 + a / 10 % 10 = 0) := by omega
    have e6 : ¬ (((0 * 10 + a / 100) * 10 + a / 10 % 10) * 10 + a % 10 > 255) := by omega
    have e7 : ((0 * 10 + a / 100) * 10 + a / 10 % 10) * 10 + a % 10 = a := by omega
    rw [if_neg e1, if_neg e2, if_neg e3, if_neg e4, if_neg e5, if_neg e6, e7]
  · by_cases h10 : a ≥ 10
    · refine ⟨digits.getD (a % 10) '0', 2, f0, ?_⟩
      simp only [h100, h10, if_true, if_false, List.nil_append, List.cons_append,
        List.append_assoc]
      rw [v4_digit_step _ (by omega), v4_digit_step _ (by omega)]
      have e1 : ¬ (0 = 1 ∧ 0 = 0) := by omega
      have e2 : ¬ (0 * 10 + a / 10 % 10 > 255) := by omega
      have e3 : ¬ (0 + 1 = 1 ∧ 0 * 10 + a / 10 % 10 = 0) := by omega
      have e4 : ¬ ((0 * 10 + a / 10 % 10) * 10 + a % 10 > 255) := by omega
      have e7 : (0 * 10 + a / 10 % 10) * 10 + a % 10 = a := by omega
      rw [if_neg e1, if_neg e2, if_neg e3, if_neg e4, e7]
    · refine ⟨digits.getD (a % 10) '0', 1, f0, ?_⟩
      simp only [h100, h10, if_false, List.nil_append, List.cons_append]
      rw [v4_digit_step _ (by omega)]
      have e1 : ¬ (0 = 1 ∧ 0 = 0) := by omega
      have e2 : ¬ (0 * 10 + a % 10 > 255) := by omega
      have e7 : 0 * 10 + a % 10 = a := by omega
      rw [if_neg e1, if_neg e2, e7]

theorem appendDecimal_ne_nil (a : Nat) : appendDecimal [] a ≠ [] := by
  unfold appendDecimal
  simp

theorem v4_octet_dot (a : Nat) (ha : a < 256) (prev : Option Char) (rest : List Char)
    (hrest : rest ≠ []) (pos : Nat) (hpos : pos ≠ 3) (fields : List Nat) :
    parseIPv4FieldsLoop prev (appendDecimal [] a ++ '.' :: rest) 0 pos 0 fields =
      parseIPv4FieldsLoop (some '.') rest 0 (pos + 1) 0 (fields.set pos a) := by
  obtain ⟨c, d, hc, h⟩ := v4_octet a ha prev ('.' :: rest) pos fields
  rw [h, parseIPv4FieldsLoop]
  have hd : isDigit '.' = false := by decide
  have hm : a % 256 = a := Nat.mod_eq_of_lt ha
  simp [hd, hrest, hc, hpos, hm]

theorem v4_octet_end (a : Nat) (ha : a < 256) (prev : Option Char) (fields : List Nat) :
    parseIPv4FieldsLoop prev (appendDecimal [] a) 0 3 0 fields = some (fields.set 3 a) := by
  obtain ⟨c, d, _, h⟩ := v4_octet a ha prev [] 3 fields
  rw [List.append_nil] at h
  rw [h, parseIPv4FieldsLoop]
  have hm : a % 256 = a := Nat.mod_eq_of_lt ha
  simp [hm]

theorem appendTo4_eq (a b c d : Nat) :
    appendTo4 [] [a, b, c, d] =
      appendDecimal [] a ++ '.' :: (appendDecimal [] b ++ '.' ::
        (appendDecimal [] c ++ '.' :: appendDecimal [] d)) := by
  unfold appendTo4
  simp only [List.getD_cons_zero, List.getD_cons_succ]
  rw [appendDecimal_eq _ d, appendDecimal_eq _ c, appendDecimal_eq _ b]
  simp

theorem parseIPv4Fields_appendTo4 (a b c d : Nat) (ha : a < 256) (hb : b < 256)
    (hc : c < 256) (hd : d < 256) :
    parseIPv4Fields (appendTo4 [] [a, b, c, d]) = some [a, b, c, d] := by
  rw [appendTo4_eq]
  unfold parseIPv4Fields
  rw [v4_octet_dot a ha _ _ (by simp [appendDecimal_ne_nil]) 0 (by decide),
    v4_octet_dot b hb _ _ (by simp [appendDecimal_ne_nil]) 1 (by decide),
    v4_octet_dot c hc _ _ (appendDecimal_ne_nil d) 2 (by decide),
    v4_octet_end d hd]
  rfl

/-! ## Lemmas: reading back a hexadecimal group -/

theorem scanHex_digit (k : Nat) (hk : k < 16) (cs : List Char) (off acc : Nat) :
    scanHex (digits.getD k '0' :: cs) off acc =
      if off > 3 then none
      else if (acc * 16 + k) % 4294967296 > 65535 then none
      else scanHex cs (off + 1) ((acc * 16 + k) % 4294967296) := by
  rw [scanHex, (digits_getD_facts k hk).1]

theorem scanHex_nil (off acc : Nat) : scanHex [] off acc = some (acc, off, []) := by
  rw [scanHex]

theorem scanHex_colon (t : List Char) (off acc : Nat) :
    scanHex (':' :: t) off acc = some (acc, off, ':' :: t) := by
  have h : hexVal ':' = none := by decide
  rw [scanHex, h]

/-- Reading the hexadecimal form of a group, followed by the end of the string or by a
colon: the value is the group and at least one digit was read. -/
theorem scanHex_hexStr (g : Nat) (hg : g < 65536) (rest : List Char)
    (hrest : rest = [] ∨ ∃ t, rest = ':' :: t) :
    ∃ off, off ≠ 0 ∧ scanHex (hexStr g ++ rest) 0 0 = some (g, off, rest) := by
  have hstop : ∀ off acc, scanHex rest off acc = some (acc, off, rest) := by
    intro off acc
    rcases hrest with rfl | ⟨t, rfl⟩
    · exact scanHex_nil off acc
    · exact scanHex_colon t off acc
  unfold hexStr appendHex
  by_cases h3 : g ≥ 0x1000
  · have h2 : g ≥ 0x100 := by omega
    have h1 : g ≥ 0x10 := by omega
    refine ⟨4, by decide, ?_⟩
    simp only [h3, h2, h1, if_true, List.nil_append, List.cons_append, List.append_assoc]
    rw [scanHex_digit _ (by omega), scanHex_digit _ (by omega), scanHex_digit _ (by omega),
      scanHex_digit _ (by omega), hstop]
    have e1 : ¬ (0 > 3) := by omega
    have e2 : ¬ ((0 * 16 + g / 4096) % 4294967296 > 65535) := by omega
    have e3 : ¬ (0 + 1 > 3) := by omega
    have e4 : ¬ (((0 * 16 + g / 4096) % 4294967296 * 16 + g / 256 % 16) % 4294967296
        > 65535) := by omega
    have e5 : ¬ (0 + 1 + 1 > 3) := by omega
    have e6 : ¬ ((((0 * 16 + g / 4096) % 4294967296 * 16 + g / 256 % 16) % 4294967296 * 16
        + g / 16 % 16) % 4294967296 > 65535) := by omega
    have e7 : ¬ (0 + 1 + 1 + 1 > 3) := by omega
    have e8 : (((((0 * 16 + g / 4096) % 4294967296 * 16 + g / 256 % 16) % 4294967296 * 16
        + g / 16 % 16) % 4294967296) * 16 + g % 16) % 4294967296 = g := by omega
    have e9 : ¬ (g > 65535) := by omega
    rw [if_neg e1, if_neg e2, if_neg e3, if_neg e4, if_neg e5, if_neg e6, if_neg e7, e8,
      if_neg e9]
  · by_cases h2 : g ≥ 0x100
    · have h1 : g ≥ 0x10 := by omega
      refine ⟨3, by decide, ?_⟩
      simp only [h3, h2, h1, if_true, if_false, List.nil_append, List.cons_append,
        List.append_assoc]
      rw [scanHex_digit _ (by omega), scanHex_digit _ (by omega), scanHex_digit _ (by omega),
        hstop]
      have e1 : ¬ (0 > 3) := by omega
      have e2 : ¬ ((0 * 16 + g / 256 % 16) % 4294967296 > 65535) := by omega
      have e3 : ¬ (0 + 1 > 3) := by omega
      have e4 : ¬ (((0 * 16 + g / 256 % 16) % 4294967296 * 16 + g / 16 % 16) % 4294967296
          > 65535) := by omega
      have e5 : ¬ (0 + 1 + 1 > 3) := by omega
      have e8 : ((((0 * 16 + g / 256 % 16) % 4294967296 * 16 + g / 16 % 16) % 4294967296)
          * 16 + g % 16) % 4294967296 = g := by omega
      have e9 : ¬ (g > 65535) := by omega
      rw [if_neg e1, if_neg e2, if_neg e3, if_neg e4, if_neg e5, e8, if_neg e9]
    · by_cases h1 : g ≥ 0x10
      · refine ⟨2, by decide, ?_⟩
        simp only [h3, h2, h1, if_true, if_false, List.nil_append, List.cons_append]
        rw [scanHex_digit _ (by omega), scanHex_digit _ (by omega), hstop]
        have e1 : ¬ (0 > 3) := by omega
        have e2 : ¬ ((0 * 16 + g / 16 % 16) % 4294967296 > 65535) := by omega
        have e3 : ¬ (0 + 1 > 3) := by omega
        have e8 : ((0 * 16 + g / 16 % 16) % 4294967296 * 16 + g % 16) % 4294967296 = g := by
          omega
        have e9 : ¬ (g > 65535) := by omega
        rw [if_neg e1, if_neg e2, if_neg e3, e8, if_neg e9]
      · refine ⟨1, by decide, ?_⟩
        simp only [h3, h2, h1, if_false, List.nil_append, List.cons_append]
        rw [scanHex_digit _ (by omega), hstop]
        have e1 : ¬ (0 > 3) := by omega
        have e8 : (0 * 16 + g % 16) % 4294967296 = g := by omega
        have e9 : ¬ (g > 65535) := by omega
        rw [if_neg e1, e8, if_neg e9]

/-- The printed form of a group starts with a digit of the table. -/
theorem hexStr_cons (g : Nat) (hg : g < 65536) :
    ∃ k t, k < 16 ∧ hexStr g = digits.getD k '0' :: t := by
  unfold hexStr appendHex
  by_cases h3 : g ≥ 0x1000
  · have h2 : g ≥ 0x100 := by omega
    have h1 : g ≥ 0x10 := by omega
    simp only [h3, h2, h1, if_true, List.nil_append, List.cons_append]
    exact ⟨g / 4096, _, by omega, rfl⟩
  · by_cases h2 : g ≥ 0x100
    · have h1 : g ≥ 0x10 := by omega
      simp only [h3, h2, h1, if_true, if_false, List.nil_append, List.cons_append]
      exact ⟨g / 256 % 16, _, by omega, rfl⟩
    · by_cases h1 : g ≥ 0x10
      · simp only [h3, h2, h1, if_true, if_false, List.nil_append, List.cons_append]
        exact ⟨g / 16 % 16, _, by omega, rfl⟩
      · simp only [h3, h2, h1, if_false, List.nil_append]
        exact ⟨g % 16, _, by omega, rfl⟩

theorem hexStr_append_ne_nil (g : Nat) (r : List Char) : hexStr g ++ r ≠ [] := by
  unfold hexStr appendHex
  simp

theorem hexStr_ne_nil (g : Nat) : hexStr g ≠ [] := by
  unfold hexStr appendHex
  simp

theorem hexStr_append_head (g : Nat) (hg : g < 65536) (r : List Char) :
    (hexStr g ++ r).head? ≠ some ':' := by
  obtain ⟨k, t, hk, h⟩ := hexStr_cons g hg
  rw [h]
  simpa using (digits_getD_facts k hk).2.2.1

theorem hexStr_head (g : Nat) (hg : g < 65536) :
    (hexStr g).head? ≠ some ':' := by
  have := hexStr_append_head g hg []
  rwa [List.append_nil] at this

/-! ## Lemmas: one turn of the loop of `parseIPv6` on a printed group -/

theorem v6_step_colon (fuel : Nat) (g : Nat) (hg : g < 65536) (s1 : List Char)
    (hs1 : s1 ≠ []) (hh : s1.head? ≠ some ':') (i : Nat) (hi : i < 16) (e : Option Nat)
    (ip : List Nat) :
    parseIPv6Loop (fuel + 1) (hexStr g ++ ':' :: s1) i e ip =
      parseIPv6Loop fuel s1 (i + 2) e ((ip.set i (g / 256 % 256)).set (i + 1) (g % 256)) := by
  obtain ⟨off, hoff, hs⟩ := scanHex_hexStr g hg (':' :: s1) (Or.inr ⟨s1, rfl⟩)
  rw [parseIPv6Loop, hs]
  have hl : ¬ (s1.length = 0) := by
    intro h
    exact hs1 (List.length_eq_zero.mp h)
  simp [hi, hoff, hh, hl]

theorem v6_step_ellipsis (fuel : Nat) (g : Nat) (hg : g < 65536) (s2 : List Char)
    (hs2 : s2 ≠ []) (i : Nat) (hi : i < 16) (ip : List Nat) :
    parseIPv6Loop (fuel + 1) (hexStr g ++ ':' :: ':' :: s2) i none ip =
      parseIPv6Loop fuel s2 (i + 2) (some (i + 2))
        ((ip.set i (g / 256 % 256)).set (i + 1) (g % 256)) := by
  obtain ⟨off, hoff, hs⟩ := scanHex_hexStr g hg (':' :: ':' :: s2) (Or.inr ⟨_, rfl⟩)
  rw [parseIPv6Loop, hs]
  simp [hi, hoff, hs2]

theorem v6_step_ellipsis_end (fuel : Nat) (g : Nat) (hg : g < 65536) (i : Nat) (hi : i < 16)
    (ip : List Nat) :
    parseIPv6Loop (fuel + 1) (hexStr g ++ [':', ':']) i none ip =
      some ([], i + 2, some (i + 2), (ip.set i (g / 256 % 256)).set (i + 1) (g % 256)) := by
  obtain ⟨off, hoff, hs⟩ := scanHex_hexStr g hg [':', ':'] (Or.inr ⟨_, rfl⟩)
  rw [parseIPv6Loop, hs]
  simp [hi, hoff]

theorem v6_step_end (fuel : Nat) (g : Nat) (hg : g < 65536) (i : Nat) (hi : i < 16)
    (e : Option Nat) (ip : List Nat) :
    parseIPv6Loop (fuel + 1) (hexStr g) i e ip =
      some ([], i + 2, e, (ip.set i (g / 256 % 256)).set (i + 1) (g % 256)) := by
  obtain ⟨off, hoff, hs⟩ := scanHex_hexStr g hg [] (Or.inl rfl)
  rw [List.append_nil] at hs
  rw [parseIPv6Loop, hs]
  simp [hi, hoff]

theorem appendHex_hexStr (b : List Char) (x : Nat) : appendHex b x = b ++ hexStr x :=
  appendHex_eq b x

/-! ## Lemmas: the run of zero groups chosen by `appendTo6` -/

theorem zeroRunEnd_spec (ip : List Nat) :
    ∀ (fuel j : Nat), j ≤ zeroRunEnd ip fuel j ∧ (j ≤ 8 → zeroRunEnd ip fuel j ≤ 8) ∧
      ∀ k, j ≤ k → k < zeroRunEnd ip fuel j → v6u16 ip k = 0
  | 0, j => by simp [zeroRunEnd]; intro k h1 h2; omega
  | fuel + 1, j => by
    rw [zeroRunEnd]
    by_cases h : j < 8 ∧ v6u16 ip j = 0
    · rw [if_pos h]
      obtain ⟨h1, h2, h3⟩ := zeroRunEnd_spec ip fuel (j + 1)
      refine ⟨by omega, fun _ => h2 (by omega), ?_⟩
      intro k hk1 hk2
      by_cases hkj : k = j
      · rw [hkj]; exact h.2
      · exact h3 k (by omega) hk2
    · rw [if_neg h]
      exact ⟨le_refl j, fun h => h, fun k h1 h2 => by omega⟩

theorem findZeroRun_ok (ip : List Nat) :
    ∀ (fuel i zs ze : Nat), ZeroRunOk ip zs ze →
      ZeroRunOk ip (findZeroRun ip fuel i zs ze).1 (findZeroRun ip fuel i zs ze).2
  | 0, i, zs, ze, h => by simpa [findZeroRun] using h
  | fuel + 1, i, zs, ze, h => by
    rw [findZeroRun]
    by_cases hi : i < 8
    · simp only [hi, not_true_eq_false, if_false]
      obtain ⟨h1, h2, h3⟩ := zeroRunEnd_spec ip 8 i
      by_cases hl : zeroRunEnd ip 8 i - i ≥ 2 ∧ zeroRunEnd ip 8 i - i > ze - zs
      · rw [if_pos hl]
        apply findZeroRun_ok ip fuel
        right
        exact ⟨by omega, h2 (by omega), h3⟩
      · rw [if_neg hl]
        exact findZeroRun_ok ip fuel _ _ _ h
    · simp only [hi, not_false_eq_true, if_true]
      exact h

/-! ## Lemmas: the characters of a printed address, strings without zone -/

theorem digits_getD_mem (k : Nat) : digits.getD k '0' ∈ digits := by
  by_cases hk : k < 16
  · interval_cases k <;> decide
  · rw [List.getD_eq_default _ _ (by simpa [digits] using hk)]
    decide

theorem mem_digits_facts (c : Char) (h : c ∈ digits) :
    c ≠ '%' ∧ c ≠ ' ' ∧ 33 ≤ c.toNat ∧ c.toNat ≤ 126 := by
  simp only [digits, List.mem_cons, List.mem_singleton, List.not_mem_nil, or_false] at h
  rcases h with h | h | h | h | h | h | h | h | h | h | h | h | h | h | h | h <;>
    (subst h; decide)

theorem appendHex_chars (P : Char → Prop) (hd : ∀ c ∈ digits, P c) (b : List Char) (x : Nat)
    (hb : ∀ c ∈ b, P c) : ∀ c ∈ appendHex b x, P c := by
  have hk : ∀ k, P (digits.getD k '0') := fun k => hd _ (digits_getD_mem k)
  unfold appendHex
  intro c hc
  by_cases h3 : x ≥ 0x1000 <;> by_cases h2 : x ≥ 0x100 <;> by_cases h1 : x ≥ 0x10 <;>
    simp only [h3, h2, h1, if_true, if_false, List.mem_append, List.mem_singleton] at hc <;>
    aesop

theorem appendDecimal_chars (P : Char → Prop) (hd : ∀ c ∈ digits, P c) (b : List Char)
    (x : Nat) (hb : ∀ c ∈ b, P c) : ∀ c ∈ appendDecimal b x, P c := by
  have hk : ∀ k, P (digits.getD k '0') := fun k => hd _ (digits_getD_mem k)
  unfold appendDecimal
  intro c hc
  by_cases h2 : x ≥ 100 <;> by_cases h1 : x ≥ 10 <;>
    simp only [h2, h1, if_true, if_false, List.mem_append, List.mem_singleton] at hc <;>
    aesop

theorem appendGroups_chars (P : Char → Prop) (hd : ∀ c ∈ digits, P c) (hcolon : P ':')
    (ip : List Nat) (zs ze : Nat) :
    ∀ (fuel i : Nat) (ret : List Char), (∀ c ∈ ret, P c) →
      ∀ c ∈ appendGroups ip zs ze fuel i ret, P c
  | 0, i, ret, h => by simpa [appendGroups] using h
  | fuel + 1, i, ret, h => by
    rw [appendGroups]
    have hr1 : ∀ c ∈ ret ++ [':', ':'], P c := by
      intro c hc
      simp only [List.mem_append, List.mem_cons, List.mem_singleton, List.not_mem_nil,
        or_false, or_self] at hc
      rcases hc with hc | hc
      · exact h c hc
      · rw [hc]; exact hcolon
    have hr2 : ∀ c ∈ ret ++ [':'], P c := by
      intro c hc
      simp only [List.mem_append, List.mem_singleton] at hc
      rcases hc with hc | hc
      · exact h c hc
      · rw [hc]; exact hcolon
    split
    · exact h
    · split
      · simp only []
        split
        · exact hr1
        · exact appendGroups_chars P hd hcolon ip zs ze fuel _ _
            (appendHex_chars P hd _ _ hr1)
      · split
        · exact appendGroups_chars P hd hcolon ip zs ze fuel _ _
            (appendHex_chars P hd _ _ hr2)
        · exact appendGroups_chars P hd hcolon ip zs ze fuel _ _
            (appendHex_chars P hd _ _ h)

theorem string6_chars (P : Char → Prop) (hd : ∀ c ∈ digits, P c) (hcolon : P ':')
    (ip : List Nat) : ∀ c ∈ string6 ip, P c := by
  unfold string6
  exact appendGroups_chars P hd hcolon ip _ _ 8 0 [] (by simp)

theorem splitZone_clean : ∀ s : List Char, (∀ c ∈ s, c ≠ '%') → splitZone s = (s, none)
  | [], _ => rfl
  | c :: cs, h => by
    have hc : c ≠ '%' := h c (List.mem_cons_self c cs)
    have ih := splitZone_clean cs (fun d hd => h d (List.mem_cons_of_mem c hd))
    rw [splitZone, if_neg hc, ih]

/-- On a string without `%`, `parseIPv6` is `parseIPv6NoZone`. -/
theorem parseIPv6_clean (out : List Char) (hno : ∀ c ∈ out, c ≠ '%') :
    parseIPv6 out = parseIPv6NoZone out := by
  unfold parseIPv6 parseIPv6NoZone
  rw [splitZone_clean out hno]
  rcases out with _ | ⟨a, _ | ⟨b, r⟩⟩
  · simp
  · simp
  · by_cases ha : a = ':' <;> by_cases hb : b = ':' <;> by_cases hr : r = [] <;>
      simp [ha, hb, hr]

theorem list16 (ip : List Nat) (h : ip.length = 16) :
    ∃ b0 b1 b2 b3 b4 b5 b6 b7 b8 b9 b10 b11 b12 b13 b14 b15 : Nat,
      ip = [b0, b1, b2, b3, b4, b5, b6, b7, b8, b9, b10, b11, b12, b13, b14, b15] := by
  rcases ip with _ | ⟨b0, ip⟩
  · simp at h
  rcases ip with _ | ⟨b1, ip⟩
  · simp at h
  rcases ip with _ | ⟨b2, ip⟩
  · simp at h
  rcases ip with _ | ⟨b3, ip⟩
  · simp at h
  rcases ip with _ | ⟨b4, ip⟩
  · simp at h
  rcases ip with _ | ⟨b5, ip⟩
  · simp at h
  rcases ip with _ | ⟨b6, ip⟩
  · simp at h
  rcases ip with _ | ⟨b7, ip⟩
  · simp at h
  rcases ip with _ | ⟨b8, ip⟩
  · simp at h
  rcases ip with _ | ⟨b9, ip⟩
  · simp at h
  rcases ip with _ | ⟨b10, ip⟩
  · simp at h
  rcases ip with _ | ⟨b11, ip⟩
  · simp at h
  rcases ip with _ | ⟨b12, ip⟩
  · simp at h
  rcases ip with _ | ⟨b13, ip⟩
  · simp at h
  rcases ip with _ | ⟨b14, ip⟩
  · simp at h
  rcases ip with _ | ⟨b15, ip⟩
  · simp at h
  rcases ip with _ | ⟨c, ip⟩
  · exact ⟨b0, b1, b2, b3, b4, b5, b6, b7, b8, b9, b10, b11, b12, b13, b14, b15, rfl⟩
  · simp at h

/-! ## Lemmas: one turn of the printing loop of `appendTo6` -/

theorem appendGroups_first (ip : List Nat) (zs ze fuel : Nat) (ret : List Char)
    (h : 0 ≠ zs) :
    appendGroups ip zs ze (fuel + 1) 0 ret =
      appendGroups ip zs ze fuel 1 (ret ++ hexStr (v6u16 ip 0)) := by
  rw [appendGroups]
  simp [h, appendHex_hexStr]

theorem appendGroups_next (ip : List Nat) (zs ze fuel i : Nat) (ret : List Char)
    (h0 : 0 < i) (h8 : i < 8) (h : i ≠ zs) :
    appendGroups ip zs ze (fuel + 1) i ret =
      appendGroups ip zs ze fuel (i + 1) (ret ++ ':' :: hexStr (v6u16 ip i)) := by
  rw [appendGroups]
  simp [h, h0, h8, appendHex_hexStr]

theorem appendGroups_skip_end (ip : List Nat) (zs ze fuel : Nat) (ret : List Char)
    (h8 : zs < 8) (he : 8 ≤ ze) :
    appendGroups ip zs ze (fuel + 1) zs ret = ret ++ [':', ':'] := by
  rw [appendGroups]
  simp [h8, he]

theorem appendGroups_skip (ip : List Nat) (zs ze fuel : Nat) (ret : List Char)
    (h8 : zs < 8) (he : ze < 8) :
    appendGroups ip zs ze (fuel + 1) zs ret =
      appendGroups ip zs ze fuel (ze + 1) (ret ++ ':' :: ':' :: hexStr (v6u16 ip ze)) := by
  rw [appendGroups]
  have : ¬ 8 ≤ ze := by omega
  simp [h8, this, appendHex_hexStr]

theorem appendGroups_done (ip : List Nat) (zs ze fuel i : Nat) (ret : List Char)
    (h8 : 8 ≤ i) : appendGroups ip zs ze fuel i ret = ret := by
  cases fuel with
  | zero => rw [appendGroups]
  | succ f =>
    rw [appendGroups]
    have : ¬ i < 8 := by omega
    simp [this]

/-! ## Lemmas: reading back a printed IPv6 address -/

/-- An address printed without ellipsis is read back. -/
theorem parse_print_plain (ip : List Nat) (hG : ∀ j, v6u16 ip j < 65536) :
    parseIPv6NoZone (appendGroups ip 255 255 8 0 []) = some ⟨false, regroup ip, []⟩ := by
  have hz16 : List.replicate 16 0 = [0, 0, 0, 0, 0, 0, 0, 0, 0, 0, 0, 0, 0, 0, 0, 0] := rfl
  try simp only [appendGroups_first, appendGroups_next, appendGroups_skip_end, appendGroups_skip,
      appendGroups_done, List.nil_append, List.append_assoc, List.cons_append,
      Nat.reduceLT, Nat.reduceEqDiff, Nat.reduceAdd, Nat.reduceLeDiff, ne_eq,
      not_false_eq_true, Nat.lt_add_one, Nat.le_refl, Nat.ofNat_pos]
  try simp only [parseIPv6NoZone, hexStr_append_head, hexStr_head, hG,
      false_and, and_false, if_false, List.head?_cons, List.tail_cons, and_self, if_true,
      List.drop_succ_cons, List.drop_zero, hexStr_append_ne_nil, hexStr_ne_nil,
      List.head?_nil, List.tail_nil, reduceCtorEq, List.drop_nil]
  try simp only [v6_step_colon, v6_step_ellipsis, v6_step_ellipsis_end, v6_step_end,
      hexStr_append_ne_nil, hexStr_ne_nil, hexStr_append_head, hexStr_head, hG,
      ne_eq, not_false_eq_true, Nat.reduceAdd, Nat.reduceLT, Nat.lt_add_one, List.cons_ne_nil]
  try simp only [hz16, List.set_cons_succ, List.set_cons_zero]
  try simp only [parseIPv6Finish, ne_eq, not_true_eq_false, if_false, Nat.reduceLT, if_true,
      Nat.reduceSub, Nat.lt_irrefl, not_false_eq_true, reduceCtorEq]
  try simp only [shiftUp, Nat.reduceAdd, List.set_cons_succ,
      List.set_cons_zero, List.getD_cons_succ, List.getD_cons_zero]
  try simp only [clearRange, Nat.reduceAdd, List.set_cons_succ,
      List.set_cons_zero, List.getD_cons_succ, List.getD_cons_zero]
  try simp only [regroup, Nat.reduceLeDiff, Nat.reduceLT, Nat.zero_div, Nat.zero_mod,
      Nat.le_refl, Nat.lt_add_one]

set_option maxHeartbeats 4000000 in
/-- An address printed with an ellipsis for a run of zero groups is read back. -/
theorem parse_print_ellipsis (ip : List Nat) (hG : ∀ j, v6u16 ip j < 65536) (zs ze : Nat)
    (h1 : zs + 2 ≤ ze) (h2 : ze ≤ 8) (hz : ∀ k, zs ≤ k → k < ze → v6u16 ip k = 0) :
    parseIPv6NoZone (appendGroups ip zs ze 8 0 []) = some ⟨false, regroup ip, []⟩ := by
  have hz16 : List.replicate 16 0 = [0, 0, 0, 0, 0, 0, 0, 0, 0, 0, 0, 0, 0, 0, 0, 0] := rfl
  have hzs : zs ≤ 6 := by omega
  interval_cases zs <;> interval_cases ze <;> first
    | (exact absurd h1 (by decide))
    | (
      try simp only [appendGroups_first, appendGroups_next, appendGroups_skip_end, appendGroups_skip,
        appendGroups_done, List.nil_append, List.append_assoc, List.cons_append,
        Nat.reduceLT, Nat.reduceEqDiff, Nat.reduceAdd, Nat.reduceLeDiff, ne_eq,
        not_false_eq_true, Nat.lt_add_one, Nat.le_refl, Nat.ofNat_pos]
      try simp only [parseIPv6NoZone, hexStr_append_head, hexStr_head, hG,
        false_and, and_false, if_false, List.head?_cons, List.tail_cons, and_self, if_true,
        List.drop_succ_cons, List.drop_zero, hexStr_append_ne_nil, hexStr_ne_nil,
        List.head?_nil, List.tail_nil, reduceCtorEq, List.drop_nil]
      try simp only [v6_step_colon, v6_step_ellipsis, v6_step_ellipsis_end, v6_step_end,
        hexStr_append_ne_nil, hexStr_ne_nil, hexStr_append_head, hexStr_head, hG,
        ne_eq, not_false_eq_true, Nat.reduceAdd, Nat.reduceLT, Nat.lt_add_one, List.cons_ne_nil]
      try simp only [hz16, List.set_cons_succ, List.set_cons_zero]
      try simp only [parseIPv6Finish, ne_eq, not_true_eq_false, if_false, Nat.reduceLT, if_true,
        Nat.reduceSub, Nat.lt_irrefl, not_false_eq_true, reduceCtorEq]
      try simp only [shiftUp, Nat.reduceAdd, List.set_cons_succ,
        List.set_cons_zero, List.getD_cons_succ, List.getD_cons_zero]
      try simp only [clearRange, Nat.reduceAdd, List.set_cons_succ,
        List.set_cons_zero, List.getD_cons_succ, List.getD_cons_zero]
      try simp only [regroup, hz, Nat.reduceLeDiff, Nat.reduceLT, Nat.zero_div, Nat.zero_mod,
        Nat.le_refl, Nat.lt_add_one]
      )

theorem getD_lt_256 (ip : List Nat) (hb : ∀ b ∈ ip, b < 256) (n : Nat) : ip.getD n 0 < 256 := by
  by_cases hn : n < ip.length
  · rw [List.getD_eq_getElem _ _ hn]
    exact hb _ (List.getElem_mem hn)
  · rw [List.getD_eq_default _ _ (by omega)]
    decide

theorem v6u16_lt (ip : List Nat) (hb : ∀ b ∈ ip, b < 256) (j : Nat) : v6u16 ip j < 65536 := by
  unfold v6u16
  have h1 := getD_lt_256 ip hb (2 * j)
  have h2 := getD_lt_256 ip hb (2 * j + 1)
  omega

theorem regroup_eq (ip : List Nat) (hlen : ip.length = 16) (hb : ∀ b ∈ ip, b < 256) :
    regroup ip = ip := by
  obtain ⟨b0, b1, b2, b3, b4, b5, b6, b7, b8, b9, b10, b11, b12, b13, b14, b15, hip⟩ := list16 ip hlen
  subst hip
  have hb0 : b0 < 256 := hb b0 (by simp)
  have hb1 : b1 < 256 := hb b1 (by simp)
  have hb2 : b2 < 256 := hb b2 (by simp)
  have hb3 : b3 < 256 := hb b3 (by simp)
  have hb4 : b4 < 256 := hb b4 (by simp)
  have hb5 : b5 < 256 := hb b5 (by simp)
  have hb6 : b6 < 256 := hb b6 (by simp)
  have hb7 : b7 < 256 := hb b7 (by simp)
  have hb8 : b8 < 256 := hb b8 (by simp)
  have hb9 : b9 < 256 := hb b9 (by simp)
  have hb10 : b10 < 256 := hb b10 (by simp)
  have hb11 : b11 < 256 := hb b11 (by simp)
  have hb12 : b12 < 256 := hb b12 (by simp)
  have hb13 : b13 < 256 := hb b13 (by simp)
  have hb14 : b14 < 256 := hb b14 (by simp)
  have hb15 : b15 < 256 := hb b15 (by simp)
  simp only [regroup, v6u16, Nat.reduceMul, Nat.reduceAdd, List.getD_cons_succ,
    List.getD_cons_zero, List.cons.injEq, and_true]
  omega

/-- Reading back the printed form of an IPv6 address gives the 16 bytes again. -/
theorem parseIPv6_string6 (ip : List Nat) (hlen : ip.length = 16) (hb : ∀ b ∈ ip, b < 256) :
    parseIPv6 (string6 ip) = some ⟨false, ip, []⟩ := by
  have hG := v6u16_lt ip hb
  have hno : ∀ c ∈ string6 ip, c ≠ '%' :=
    string6_chars (fun c => c ≠ '%') (fun c hc => (mem_digits_facts c hc).1) (by decide) ip
  rw [parseIPv6_clean _ hno]
  unfold string6
  have hok := findZeroRun_ok ip 8 0 255 255 (Or.inl ⟨rfl, rfl⟩)
  generalize findZeroRun ip 8 0 255 255 = z at hok ⊢
  obtain ⟨zs, ze⟩ := z
  simp only at hok ⊢
  rcases hok with ⟨rfl, rfl⟩ | ⟨h1, h2, hz⟩
  · rw [parse_print_plain ip hG, regroup_eq ip hlen hb]
  · rw [parse_print_ellipsis ip hG zs ze h1 h2 hz, regroup_eq ip hlen hb]

/-! ## Lemmas: what `ParseIP` returns is 16 bytes -/

theorem isBytes_set {n : Nat} {l : List Nat} (h : IsBytes n l) (i v : Nat) (hv : v < 256) :
    IsBytes n (l.set i v) := by
  refine ⟨by rw [List.length_set]; exact h.1, ?_⟩
  intro b hb
  rcases List.mem_or_eq_of_mem_set hb with hb | hb
  · exact h.2 b hb
  · rw [hb]; exact hv

theorem isBytes_getD {n : Nat} {l : List Nat} (h : IsBytes n l) (i : Nat) :
    l.getD i 0 < 256 := getD_lt_256 l h.2 i

theorem parseIPv4FieldsLoop_bytes :
    ∀ (s : List Char) (prev : Option Char) (val pos digLen : Nat) (fields r : List Nat),
      IsBytes 4 fields → parseIPv4FieldsLoop prev s val pos digLen fields = some r →
      IsBytes 4 r
  | [], prev, val, pos, digLen, fields, r, hf, h => by
    rw [parseIPv4FieldsLoop] at h
    split at h
    · cases h
    · cases h
      exact isBytes_set hf 3 _ (Nat.mod_lt _ (by decide))
  | c :: rest, prev, val, pos, digLen, fields, r, hf, h => by
    rw [parseIPv4FieldsLoop] at h
    split at h
    · split at h
      · cases h
      · simp only [] at h
        split at h
        · cases h
        · exact parseIPv4FieldsLoop_bytes rest _ _ _ _ _ r hf h
    · split at h
      · split at h
        · cases h
        · split at h
          · cases h
          · exact parseIPv4FieldsLoop_bytes rest _ _ _ _ _ r
              (isBytes_set hf _ _ (Nat.mod_lt _ (by decide))) h
      · cases h

theorem parseIPv4Fields_bytes (s : List Char) (r : List Nat)
    (h : parseIPv4Fields s = some r) : IsBytes 4 r :=
  parseIPv4FieldsLoop_bytes s none 0 0 0 [0, 0, 0, 0] r
    ⟨rfl, by intro b hb; simp at hb; omega⟩ h

theorem parseIPv4_bytes (s : List Char) (a : Addr) (h : parseIPv4 s = some a) :
    IsBytes 16 a.bytes ∧ a.zone = [] := by
  unfold parseIPv4 at h
  cases hf : parseIPv4Fields s with
  | none => rw [hf] at h; cases h
  | some f =>
    rw [hf] at h
    cases h
    have hb := parseIPv4Fields_bytes s f hf
    refine ⟨⟨by simp [AddrFrom4, hb.1], ?_⟩, rfl⟩
    intro b hm
    simp only [AddrFrom4, List.mem_append, List.mem_cons, List.mem_singleton,
      List.not_mem_nil, or_false] at hm
    rcases hm with hm | hm
    · omega
    · exact hb.2 b hm

theorem writeFields_bytes {ip : List Nat} (h : IsBytes 16 ip) (i : Nat) {f : List Nat}
    (hf : IsBytes 4 f) : IsBytes 16 (writeFields ip i f) := by
  unfold writeFields
  exact isBytes_set (isBytes_set (isBytes_set (isBytes_set h _ _ (isBytes_getD hf 0)) _ _
    (isBytes_getD hf 1)) _ _ (isBytes_getD hf 2)) _ _ (isBytes_getD hf 3)

theorem parseIPv6Loop_bytes :
    ∀ (fuel : Nat) (s : List Char) (i : Nat) (e : Option Nat) (ip : List Nat)
      (r : List Char × Nat × Option Nat × List Nat),
      IsBytes 16 ip → parseIPv6Loop fuel s i e ip = some r → IsBytes 16 r.2.2.2
  | 0, s, i, e, ip, r, hip, h => by
    rw [parseIPv6Loop] at h
    cases h
    exact hip
  | fuel + 1, s, i, e, ip, r, hip, h => by
    rw [parseIPv6Loop] at h
    split at h
    · cases h
      exact hip
    · split at h
      · cases h
      · rename_i acc off rest hscan
        have hip1 : IsBytes 16 ((ip.set i (acc / 256 % 256)).set (i + 1) (acc % 256)) :=
          isBytes_set (isBytes_set hip _ _ (Nat.mod_lt _ (by decide))) _ _
            (Nat.mod_lt _ (by decide))
        split at h
        · cases h
        · split at h
          · split at h
            · cases h
            · split at h
              · cases h
              · split at h
                · cases h
                · rename_i f hf
                  cases h
                  exact writeFields_bytes hip i (parseIPv4Fields_bytes s f hf)
          · simp only [] at h
            split at h
            · cases h
              exact hip1
            · split at h
              · cases h
              · split at h
                · cases h
                · split at h
                  · split at h
                    · cases h
                    · split at h
                      · cases h
                        exact hip1
                      · exact parseIPv6Loop_bytes fuel _ _ _ _ r hip1 h
                  · exact parseIPv6Loop_bytes fuel _ _ _ _ r hip1 h

theorem shiftUp_bytes (n e : Nat) :
    ∀ (k : Nat) (ip : List Nat), IsBytes 16 ip → IsBytes 16 (shiftUp n e k ip)
  | 0, ip, h => by rw [shiftUp]; exact h
  | k + 1, ip, h => by
    rw [shiftUp]
    exact shiftUp_bytes n e k _ (isBytes_set h _ _ (isBytes_getD h _))

theorem clearRange_bytes :
    ∀ (n e : Nat) (ip : List Nat), IsBytes 16 ip → IsBytes 16 (clearRange e n ip)
  | 0, e, ip, h => by rw [clearRange]; exact h
  | n + 1, e, ip, h => by
    rw [clearRange]
    exact clearRange_bytes n (e + 1) _ (isBytes_set h _ _ (by decide))

theorem parseIPv6Finish_bytes (zone : List Char)
    (st : Option (List Char × Nat × Option Nat × List Nat)) (a : Addr)
    (hst : ∀ r, st = some r → IsBytes 16 r.2.2.2) (h : parseIPv6Finish zone st = some a) :
    IsBytes 16 a.bytes := by
  unfold parseIPv6Finish at h
  split at h
  · cases h
  · rename_i s1 i e ip
    have hip : IsBytes 16 ip := hst _ rfl
    split at h
    · cases h
    · split at h
      · split at h
        · cases h
        · cases h
          exact clearRange_bytes _ _ _ (shiftUp_bytes _ _ _ _ hip)
      · split at h
        · cases h
        · cases h
          exact hip

theorem replicate_bytes : IsBytes 16 (List.replicate 16 0) :=
  ⟨rfl, by intro b hb; rw [List.eq_of_mem_replicate hb]; decide⟩

theorem parseIPv6_bytes (s : List Char) (a : Addr) (h : parseIPv6 s = some a) :
    IsBytes 16 a.bytes := by
  have hF : ∀ (zone s1 : List Char) (e0 : Option Nat),
      parseIPv6Finish zone (parseIPv6Loop 8 s1 0 e0 (List.replicate 16 0)) = some a →
      IsBytes 16 a.bytes := fun zone s1 e0 h1 =>
    parseIPv6Finish_bytes _ _ a
      (fun r hr => parseIPv6Loop_bytes _ _ _ _ _ r replicate_bytes hr) h1
  unfold parseIPv6 at h
  simp only [] at h
  split at h
  · cases h
  · generalize (decide ((splitZone s).1.length ≥ 2) && (splitZone s).1.head? == some ':' &&
      (splitZone s).1.tail.head? == some ':') = lead at h
    cases lead
    · simp only [Bool.false_eq_true, false_and, if_false] at h
      exact hF _ _ _ h
    · simp only [true_and, if_true] at h
      split at h
      · cases h
        exact replicate_bytes
      · exact hF _ _ _ h

theorem parseAddrScan_bytes (s : List Char) :
    ∀ (t : List Char) (a : Addr), parseAddrScan s t = some a → IsBytes 16 a.bytes
  | [], a, h => by rw [parseAddrScan] at h; cases h
  | c :: cs, a, h => by
    rw [parseAddrScan] at h
    split at h
    · exact (parseIPv4_bytes s a h).1
    · split at h
      · exact parseIPv6_bytes s a h
      · split at h
        · cases h
        · exact parseAddrScan_bytes s cs a h

/-- What `ParseIP` returns is a slice of 16 bytes. -/
theorem parseIP_bytes (s : String) (ip : IP) (h : ParseIP s = some ip) : IsBytes 16 ip := by
  unfold ParseIP at h
  split at h
  · cases h
  · rename_i a ha
    split at h
    · cases h
    · cases h
      exact parseAddrScan_bytes _ _ a ha

/-! ## Lemmas: `ParseIP` reads back what `IP.String` prints -/

theorem appendHex_mono (b : List Char) (x : Nat) (c : Char) (h : c ∈ b) :
    c ∈ appendHex b x := by
  rw [appendHex_eq]
  exact List.mem_append_left _ h

theorem appendGroups_mono (ip : List Nat) (zs ze : Nat) (c : Char) :
    ∀ (fuel i : Nat) (ret : List Char), c ∈ ret → c ∈ appendGroups ip zs ze fuel i ret
  | 0, i, ret, h => by rw [appendGroups]; exact h
  | fuel + 1, i, ret, h => by
    rw [appendGroups]
    split
    · exact h
    · split
      · simp only []
        split
        · exact List.mem_append_left _ h
        · exact appendGroups_mono ip zs ze c fuel _ _
            (appendHex_mono _ _ c (List.mem_append_left _ h))
      · split
        · exact appendGroups_mono ip zs ze c fuel _ _
            (appendHex_mono _ _ c (List.mem_append_left _ h))
        · exact appendGroups_mono ip zs ze c fuel _ _ (appendHex_mono _ _ c h)

theorem colon_mem_appendGroups (ip : List Nat) (zs ze : Nat) :
    ':' ∈ appendGroups ip zs ze 8 0 [] := by
  rw [appendGroups]
  simp only [Nat.reduceLT, not_true_eq_false, if_false, List.nil_append]
  have hc : ':' ∈ [':', ':'] := List.mem_cons_self _ _
  have hc1 : ':' ∈ [':'] := List.mem_cons_self _ _
  split
  · split
    · exact hc
    · exact appendGroups_mono ip zs ze ':' _ _ _ (appendHex_mono _ _ _ hc)
  · simp only [Nat.lt_irrefl, gt_iff_lt, if_false]
    rw [appendGroups]
    simp only [Nat.reduceLT, not_true_eq_false, if_false, Nat.reduceAdd]
    split
    · split
      · exact List.mem_append_right _ hc
      · exact appendGroups_mono ip zs ze ':' _ _ _
          (appendHex_mono _ _ _ (List.mem_append_right _ hc))
    · simp only [Nat.lt_add_one, gt_iff_lt, if_true, Nat.ofNat_pos]
      exact appendGroups_mono ip zs ze ':' _ _ _
        (appendHex_mono _ _ _ (List.mem_append_right _ hc1))

/-- The printed form of an IPv6 address has a colon. -/
theorem colon_mem_string6 (ip : List Nat) : ':' ∈ string6 ip :=
  colon_mem_appendGroups ip _ _

theorem parseAddrScan_v6 (s : List Char) :
    ∀ t : List Char, (∀ c ∈ t, c ∈ digits ∨ c = ':') → ':' ∈ t →
      parseAddrScan s t = parseIPv6 s
  | [], _, h => by simp at h
  | c :: cs, hall, h => by
    rw [parseAddrScan]
    rcases hall c (List.mem_cons_self c cs) with hc | hc
    · have hd : c ≠ '.' ∧ c ≠ ':' ∧ c ≠ '%' := by
        simp only [digits, List.mem_cons, List.mem_singleton, List.not_mem_nil, or_false] at hc
        rcases hc with h | h | h | h | h | h | h | h | h | h | h | h | h | h | h | h <;>
          (subst h; decide)
      rw [if_neg hd.1, if_neg hd.2.1, if_neg hd.2.2]
      apply parseAddrScan_v6 s cs (fun d hd => hall d (List.mem_cons_of_mem c hd))
      rcases List.mem_cons.mp h with h | h
      · exact absurd h.symm hd.2.1
      · exact h
    · subst hc
      have h1 : ¬ (':' = '.') := by decide
      rw [if_neg h1, if_pos rfl]

theorem parseAddrScan_v4 (s rest : List Char) :
    ∀ pre : List Char, (∀ c ∈ pre, c ∈ digits) →
      parseAddrScan s (pre ++ '.' :: rest) = parseIPv4 s
  | [], _ => by rw [List.nil_append, parseAddrScan, if_pos rfl]
  | c :: cs, hall => by
    have hc := hall c (List.mem_cons_self c cs)
    have hd : c ≠ '.' ∧ c ≠ ':' ∧ c ≠ '%' := by
      simp only [digits, List.mem_cons, List.mem_singleton, List.not_mem_nil, or_false] at hc
      rcases hc with h | h | h | h | h | h | h | h | h | h | h | h | h | h | h | h <;>
        (subst h; decide)
    rw [List.cons_append, parseAddrScan, if_neg hd.1, if_neg hd.2.1, if_neg hd.2.2]
    exact parseAddrScan_v4 s rest cs (fun d hd => hall d (List.mem_cons_of_mem c hd))

/-- The printed form of a slice of 16 bytes: dotted decimal for an IPv4-mapped address,
else the IPv6 form. -/
theorem ipString_eq (ip : IP) (hlen : ip.length = 16) :
    IP.String ip =
      if isMapped4 ip then String.mk (appendTo4 [] (ip.drop 12)) else String.mk (string6 ip) := by
  unfold IP.String To4 addr16String
  have h0 : ¬ ip.length = 0 := by omega
  have h4 : ¬ ip.length = 4 := by omega
  by_cases hm : isMapped4 ip = true
  · simp [h0, h4, hlen, hm]
  · simp [h0, h4, hlen, hm]

theorem mapped4_shape (ip : List Nat) (hlen : ip.length = 16) (hm : isMapped4 ip = true) :
    ∃ a b c d, ip = [0, 0, 0, 0, 0, 0, 0, 0, 0, 0, 255, 255, a, b, c, d] := by
  obtain ⟨b0, b1, b2, b3, b4, b5, b6, b7, b8, b9, b10, b11, b12, b13, b14, b15, hip⟩ := list16 ip hlen
  subst hip
  simp [isMapped4] at hm
  refine ⟨b12, b13, b14, b15, ?_⟩
  simp only [List.cons.injEq, and_true, true_and]
  omega

/-- The function `ParseIP` reads back what `IP.String` prints for a slice of 16 bytes. -/
theorem parseIP_string (ip : IP) (h : IsBytes 16 ip) : ParseIP (IP.String ip) = some ip := by
  rw [ipString_eq ip h.1]
  by_cases hm : isMapped4 ip = true
  · rw [if_pos hm]
    obtain ⟨a, b, c, d, hip⟩ := mapped4_shape ip h.1 hm
    have ha : a < 256 := h.2 a (by simp [hip])
    have hb : b < 256 := h.2 b (by simp [hip])
    have hc : c < 256 := h.2 c (by simp [hip])
    have hd : d < 256 := h.2 d (by simp [hip])
    have hdrop : ip.drop 12 = [a, b, c, d] := by rw [hip]; rfl
    have hs : ParseAddr (appendTo4 [] [a, b, c, d]) = some (AddrFrom4 [a, b, c, d]) := by
      unfold ParseAddr
      have hscan : parseAddrScan (appendTo4 [] [a, b, c, d]) (appendTo4 [] [a, b, c, d]) =
          parseIPv4 (appendTo4 [] [a, b, c, d]) := by
        conv => lhs; arg 2; rw [appendTo4_eq]
        exact parseAddrScan_v4 _ _ _
          (appendDecimal_chars (fun c => c ∈ digits) (fun c hc => hc) [] a (by simp))
      rw [hscan]
      unfold parseIPv4
      rw [parseIPv4Fields_appendTo4 a b c d ha hb hc hd]
      rfl
    unfold ParseIP
    simp only [hdrop, hs]
    rw [hip]
    rfl
  · rw [if_neg hm]
    have hs : ParseAddr (string6 ip) = some ⟨false, ip, []⟩ := by
      unfold ParseAddr
      rw [parseAddrScan_v6 _ _
        (string6_chars (fun c => c ∈ digits ∨ c = ':') (fun c hc => Or.inl hc) (Or.inr rfl) ip)
        (colon_mem_string6 ip)]
      exact parseIPv6_string6 ip h.1 h.2
    unfold ParseIP
    simp only [hs]
    rfl

/-- The printed form of a slice of 16 bytes is not empty and has no white space. -/
theorem ipString_chars (ip : IP) (h : IsBytes 16 ip) :
    (IP.String ip).data ≠ [] ∧ ∀ c ∈ (IP.String ip).data, unicodeIsSpace c = false := by
  have hP : ∀ c, (c ∈ digits ∨ c = ':' ∨ c = '.') → unicodeIsSpace c = false := by
    intro c hc
    rcases hc with hc | hc | hc
    · have := mem_digits_facts c hc
      exact not_space_of_printable c this.2.2.1 this.2.2.2
    · subst hc; decide
    · subst hc; decide
  rw [ipString_eq ip h.1]
  by_cases hm : isMapped4 ip = true
  · rw [if_pos hm]
    constructor
    · show appendTo4 [] (ip.drop 12) ≠ []
      unfold appendTo4
      rw [appendDecimal_eq]
      simp [appendDecimal_ne_nil]
    · intro c hc
      apply hP
      have hc' : c ∈ appendTo4 [] (ip.drop 12) := hc
      unfold appendTo4 at hc'
      have hdot : ∀ (r : List Char), (∀ c ∈ r, c ∈ digits ∨ c = ':' ∨ c = '.') →
          ∀ c ∈ r ++ ['.'], c ∈ digits ∨ c = ':' ∨ c = '.' := by
        intro r hr c hc
        rcases List.mem_append.mp hc with hc | hc
        · exact hr c hc
        · simp at hc; exact Or.inr (Or.inr hc)
      have hD := appendDecimal_chars (fun c => c ∈ digits ∨ c = ':' ∨ c = '.')
        (fun c hc => Or.inl hc)
      exact hD _ _ (hdot _ (hD _ _ (hdot _ (hD _ _ (hdot _ (hD _ _ (by simp))))))) c hc'
  · rw [if_neg hm]
    constructor
    · show string6 ip ≠ []
      exact List.ne_nil_of_mem (colon_mem_string6 ip)
    · intro c hc
      apply hP
      have := string6_chars (fun c => c ∈ digits ∨ c = ':' ∨ c = '.') (fun c hc => Or.inl hc)
        (Or.inr (Or.inl rfl)) ip c hc
      exact this

/-! ## The fuel of the loops is enough

Each loop of the standard library that is written here with a count of turns runs while
an index is below a bound and moves the index up at each turn; with the count used in
the definitions the count never runs out before the index reaches the bound, so more
turns change nothing. -/

theorem parseIPv6Loop_fuel :
    ∀ (fuel k : Nat) (s : List Char) (i : Nat) (e : Option Nat) (ip : List Nat),
      16 ≤ i + 2 * fuel →
      parseIPv6Loop (fuel + k) s i e ip = parseIPv6Loop fuel s i e ip
  | 0, k, s, i, e, ip, h => by
    have hi : ¬ i < 16 := by omega
    cases k with
    | zero => rfl
    | succ k =>
      rw [Nat.zero_add, parseIPv6Loop, parseIPv6Loop]
      simp [hi]
  | fuel + 1, k, s, i, e, ip, h => by
    have hk : fuel + 1 + k = (fuel + k) + 1 := by omega
    have h2 : 16 ≤ i + 2 + 2 * fuel := by omega
    rw [hk, parseIPv6Loop, parseIPv6Loop]
    simp only [parseIPv6Loop_fuel fuel k _ (i + 2) _ _ h2]

theorem zeroRunEnd_fuel (ip : List Nat) :
    ∀ (fuel k j : Nat), 8 ≤ j + fuel →
      zeroRunEnd ip (fuel + k) j = zeroRunEnd ip fuel j
  | 0, k, j, h => by
    have hj : ¬ j < 8 := by omega
    cases k with
    | zero => rfl
    | succ k =>
      rw [Nat.zero_add, zeroRunEnd, zeroRunEnd]
      simp [hj]
  | fuel + 1, k, j, h => by
    have hk : fuel + 1 + k = (fuel + k) + 1 := by omega
    rw [hk, zeroRunEnd, zeroRunEnd, zeroRunEnd_fuel ip fuel k (j + 1) (by omega)]

theorem findZeroRun_fuel (ip : List Nat) :
    ∀ (fuel k i zs ze : Nat), 8 ≤ i + fuel →
      findZeroRun ip (fuel + k) i zs ze = findZeroRun ip fuel i zs ze
  | 0, k, i, zs, ze, h => by
    have hi : ¬ i < 8 := by omega
    cases k with
    | zero => rfl
    | succ k =>
      rw [Nat.zero_add, findZeroRun, findZeroRun]
      simp [hi]
  | fuel + 1, k, i, zs, ze, h => by
    have hk : fuel + 1 + k = (fuel + k) + 1 := by omega
    rw [hk, findZeroRun, findZeroRun]
    simp only [findZeroRun_fuel ip fuel k (i + 1) _ _ (by omega)]

theorem appendGroups_fuel (ip : List Nat) (zs ze : Nat) (hz : zs ≤ ze) :
    ∀ (fuel k i : Nat) (ret : List Char), 8 ≤ i + fuel →
      appendGroups ip zs ze (fuel + k) i ret = appendGroups ip zs ze fuel i ret
  | 0, k, i, ret, h => by
    have hi : ¬ i < 8 := by omega
    cases k with
    | zero => rfl
    | succ k =>
      rw [Nat.zero_add, appendGroups, appendGroups]
      simp [hi]
  | fuel + 1, k, i, ret, h => by
    have hk : fuel + 1 + k = (fuel + k) + 1 := by omega
    rw [hk, appendGroups, appendGroups]
    by_cases hi : i = zs
    · have h2 : 8 ≤ ze + 1 + fuel := by omega
      simp only [hi, if_true, appendGroups_fuel ip zs ze hz fuel k (ze + 1) _ h2]
    · have h2 : 8 ≤ i + 1 + fuel := by omega
      simp only [hi, if_false, appendGroups_fuel ip zs ze hz fuel k (i + 1) _ h2]

/-! ## Input validation: the claims -/

/-- C2: when the trimmed input is non-empty and parses as an IP address,
`ValidatePublicInput` succeeds with type IP and the string form of the parsed address as
value; such an input is never returned as a username. -/
theorem validate_ip (raw : String) (ip : IP) (hne : TrimSpace raw ≠ "")
    (hip : ParseIP (TrimSpace raw) = some ip) :
    ValidatePublicInput raw = Except.ok ⟨InputType.InputIP, IP.String ip⟩ ∧
      ∀ r, ValidatePublicInput raw = Except.ok r → r.Typ ≠ InputType.InputUsername := by
  have h : ValidatePublicInput raw = Except.ok ⟨InputType.InputIP, IP.String ip⟩ := by
    unfold ValidatePublicInput
    simp [hne, hip]
  refine ⟨h, ?_⟩
  intro r hr
  rw [h] at hr
  cases hr
  simp

/-- C2 at `"1.2.3.4"`, which also matches the username pattern, and at an IPv6 address
written with capitals and surrounded by blanks. -/
theorem validate_ip_witness :
    usernameRegexMatchString "1.2.3.4" = true ∧
    ValidatePublicInput "1.2.3.4" = Except.ok ⟨InputType.InputIP, "1.2.3.4"⟩ ∧
    ValidatePublicInput " 2001:DB8::1\n" = Except.ok ⟨InputType.InputIP, "2001:db8::1"⟩ :=
  ⟨by decide,
   (validate_ip "1.2.3.4" [0, 0, 0, 0, 0, 0, 0, 0, 0, 0, 255, 255, 1, 2, 3, 4]
      (by decide) (by decide)).1,
   (validate_ip " 2001:DB8::1\n" [32, 1, 13, 184, 0, 0, 0, 0, 0, 0, 0, 0, 0, 0, 0, 1]
      (by decide) (by decide)).1⟩

/-- C3: a string of 3 to 30 characters, all of them ASCII letters, digits, `.` or `_`,
that does not parse as an IP address is accepted as a username, with itself as value. -/
theorem validate_username (s : String) (hlen : 3 ≤ s.length ∧ s.length ≤ 30)
    (hchars : ∀ c ∈ s.data, c.isAlphanum = true ∨ c = '.' ∨ c = '_')
    (hip : ParseIP s = none) :
    ValidatePublicInput s = Except.ok ⟨InputType.InputUsername, s⟩ := by
  have hm : usernameRegexMatchString s = true :=
    (usernameRegex_iff s).mpr ⟨hlen.1, hlen.2, hchars⟩
  have ht : TrimSpace s = s := trimSpace_of_usernameRegex s hm
  have hne : s ≠ "" := usernameRegex_ne_empty s hm
  unfold ValidatePublicInput
  simp [ht, hne, hip, hm]

/-- C3 at `"validuser_123"`. -/
theorem validate_username_witness :
    ValidatePublicInput "validuser_123" =
      Except.ok ⟨InputType.InputUsername, "validuser_123"⟩ :=
  validate_username "validuser_123" (by decide) (by decide) (by decide)

/-- C7: when the trimmed input is non-empty, does not parse as an IP address and does not
match the username pattern, `ValidatePublicInput` fails with the unsupported-input
error. -/
theorem validate_unsupported (raw : String) (hne : TrimSpace raw ≠ "")
    (hip : ParseIP (TrimSpace raw) = none)
    (hpat : ¬ (3 ≤ (TrimSpace raw).length ∧ (TrimSpace raw).length ≤ 30 ∧
      ∀ c ∈ (TrimSpace raw).data, c.isAlphanum = true ∨ c = '.' ∨ c = '_')) :
    ValidatePublicInput raw = Except.error errUnsupported ∧
      errUnsupported = "input is neither a valid IP address nor a supported username" := by
  have hm : usernameRegexMatchString (TrimSpace raw) = false := by
    cases h : usernameRegexMatchString (TrimSpace raw) with
    | false => rfl
    | true => exact absurd ((usernameRegex_iff _).mp h) hpat
  refine ⟨?_, rfl⟩
  unfold ValidatePublicInput
  simp [hne, hip, hm]

/-- C7 at `"a"`, `"ab"`, `"!!!"` and a string of 31 letters. -/
theorem validate_unsupported_witness :
    ValidatePublicInput "a" = Except.error errUnsupported ∧
    ValidatePublicInput "ab" = Except.error errUnsupported ∧
    ValidatePublicInput "!!!" = Except.error errUnsupported ∧
    ValidatePublicInput "abcdefghijklmnopqrstuvwxyzabcde" = Except.error errUnsupported :=
  ⟨(validate_unsupported "a" (by decide) (by decide) (by decide)).1,
   (validate_unsupported "ab" (by decide) (by decide) (by decide)).1,
   (validate_unsupported "!!!" (by decide) (by decide) (by decide)).1,
   (validate_unsupported "abcdefghijklmnopqrstuvwxyzabcde" (by decide) (by decide)
      (by decide)).1⟩

/-- C8: `ValidatePublicInput` fails with the empty-input error exactly on the strings
all of whose characters are white space (the empty string among them). -/
theorem validate_empty_iff (raw : String) :
    (ValidatePublicInput raw = Except.error errEmpty ↔
      ∀ c ∈ raw.data, unicodeIsSpace c = true) ∧
    errEmpty = "input is empty" := by
  refine ⟨?_, rfl⟩
  have hiff : TrimSpace raw = "" ↔ ∀ c ∈ raw.data, unicodeIsSpace c = true := by
    rw [string_eq_empty_iff]
    exact trimSpaceChars_eq_nil_iff raw.data
  rcases validate_cases raw with h | h | h | h
  · rw [h.2]
    simpa using hiff.mp h.1
  · obtain ⟨hne, ip, _, hv⟩ := h
    rw [hv]
    constructor
    · intro hc; cases hc
    · intro hc; exact absurd (hiff.mpr hc) hne
  · obtain ⟨hne, _, _, hv⟩ := h
    rw [hv]
    constructor
    · intro hc; cases hc
    · intro hc; exact absurd (hiff.mpr hc) hne
  · obtain ⟨hne, _, _, hv⟩ := h
    rw [hv]
    constructor
    · intro hc
      have : errUnsupported = errEmpty := by injection hc
      exact absurd this (by decide)
    · intro hc; exact absurd (hiff.mpr hc) hne

/-- C9: on success, a result of type IP carries the string form of the address parsed
from the trimmed input, and a result of type username carries a string that matches
`^[a-zA-Z0-9._]{3,30}$`. -/
theorem validate_result_invariant (raw : String) (r : ValidationResult)
    (h : ValidatePublicInput raw = Except.ok r) :
    (r.Typ = InputType.InputIP →
      ∃ ip, ParseIP (TrimSpace raw) = some ip ∧ r.Value = IP.String ip) ∧
    (r.Typ = InputType.InputUsername →
      usernameRegexMatchString r.Value = true ∧ 3 ≤ r.Value.length ∧ r.Value.length ≤ 30 ∧
        ∀ c ∈ r.Value.data, c.isAlphanum = true ∨ c = '.' ∨ c = '_') := by
  rcases validate_cases raw with h1 | h1 | h1 | h1
  · rw [h1.2] at h; cases h
  · obtain ⟨_, ip, hip, hv⟩ := h1
    rw [hv] at h
    cases h
    exact ⟨fun _ => ⟨ip, hip, rfl⟩, fun hc => by cases hc⟩
  · obtain ⟨_, _, hm, hv⟩ := h1
    rw [hv] at h
    cases h
    exact ⟨fun hc => (by cases hc), fun _ => ⟨hm, (usernameRegex_iff _).mp hm⟩⟩
  · rw [h1.2.2.2] at h; cases h

/-- C9 at `" 10.0.0.1 "` and at `"  user.name_1 "`. -/
theorem validate_result_invariant_witness :
    (∃ ip, ParseIP (TrimSpace " 10.0.0.1 ") = some ip ∧ "10.0.0.1" = IP.String ip) ∧
    usernameRegexMatchString "user.name_1" = true :=
  ⟨(validate_result_invariant " 10.0.0.1 " ⟨InputType.InputIP, "10.0.0.1"⟩ rfl).1 rfl,
   ((validate_result_invariant "  user.name_1 " ⟨InputType.InputUsername, "user.name_1"⟩
      rfl).2 rfl).1⟩

/-! ## The platform probe -/

theorem checkUsernameLoop_eq (get : Nat → String → GetResult) (username : String) :
    ∀ (ps : List Platform) (st : ProbeState),
      CheckUsernameLoop get username ps st =
        ⟨st.found ++ ((ps.enumFrom st.requests.length).filter
            (fun ip => decide (get ip.1 (Sprintf ip.2.URL username) = GetResult.resp 200))).map
            (fun ip => ip.2.Name),
          st.requests ++ ps.map (fun p => Sprintf p.URL username)⟩
  | [], st => by simp [CheckUsernameLoop]
  | p :: ps, st => by
    unfold CheckUsernameLoop
    simp only []
    cases hg : get st.requests.length (Sprintf p.URL username) with
    | err =>
      simp only []
      rw [checkUsernameLoop_eq get username ps]
      simp [List.enumFrom, List.filter_cons, hg]
    | resp code =>
      simp only []
      by_cases hc : code = 200
      · rw [if_pos hc, checkUsernameLoop_eq get username ps]
        simp [List.enumFrom, List.filter_cons, hg, hc]
      · rw [if_neg hc, checkUsernameLoop_eq get username ps]
        simp [List.enumFrom, List.filter_cons, hg, hc]

theorem sprintf_platforms (username : String) :
    platforms.map (fun p => Sprintf p.URL username) =
      ["https://github.com/" ++ username, "https://x.com/" ++ username,
       "https://www.instagram.com/" ++ username, "https://www.reddit.com/user/" ++ username,
       "https://medium.com/@" ++ username, "https://dev.to/" ++ username] := by
  simp only [platforms, List.map, Sprintf, List.cons.injEq, and_true]
  refine ⟨?_, ?_, ?_, ?_, ?_, ?_⟩ <;>
  · rw [String.ext_iff]
    simp [sprintfChars]

/-- C1: `CheckUsername` issues one GET for each platform, in the order of the table, to
the template with the user name substituted, whatever the earlier GETs gave; it returns,
in that order, the names of the platforms whose GET gave a response with status 200.
Every returned name is in the table and there are at most 6 of them. -/
theorem checkUsername_spec (get : Nat → String → GetResult) (username : String) :
    CheckUsername get username =
      ((platforms.enum.filter
        (fun ip => decide (get ip.1 (Sprintf ip.2.URL username) = GetResult.resp 200))).map
        (fun ip => ip.2.Name)) ∧
    (CheckUsernameRun get username).requests =
      ["https://github.com/" ++ username, "https://x.com/" ++ username,
       "https://www.instagram.com/" ++ username, "https://www.reddit.com/user/" ++ username,
       "https://medium.com/@" ++ username, "https://dev.to/" ++ username] ∧
    List.Sublist (CheckUsername get username) (platforms.map Platform.Name) ∧
    (∀ n ∈ CheckUsername get username, n ∈ platforms.map Platform.Name) ∧
    (CheckUsername get username).length ≤ 6 ∧ platforms.length = 6 := by
  have h := checkUsernameLoop_eq get username platforms ⟨[], []⟩
  have hf : CheckUsername get username =
      ((platforms.enum.filter
        (fun ip => decide (get ip.1 (Sprintf ip.2.URL username) = GetResult.resp 200))).map
        (fun ip => ip.2.Name)) := by
    unfold CheckUsername CheckUsernameRun
    rw [h]
    simp [List.enum]
  have hsub : List.Sublist (CheckUsername get username) (platforms.map Platform.Name) := by
    rw [hf]
    have h1 : platforms.map Platform.Name = platforms.enum.map (fun ip => ip.2.Name) := by
      decide
    rw [h1]
    exact List.Sublist.map _ (List.filter_sublist _)
  refine ⟨hf, ?_, hsub, fun n hn => hsub.subset hn, ?_, rfl⟩
  · unfold CheckUsernameRun
    rw [h]
    simp only [List.nil_append]
    exact sprintf_platforms username
  · have := hsub.length_le
    simpa [platforms] using this

/-! ## The reports -/

theorem foundLine_data (n : Nat) :
    ∃ t, ("Found on " ++ toString n ++ " platform(s)").data = 'F' :: t :=
  ⟨_, rfl⟩

theorem foundLine_not_level (n : Nat) :
    isLevelLine ("Found on " ++ toString n ++ " platform(s)") = false := by
  obtain ⟨t, ht⟩ := foundLine_data n
  unfold isLevelLine
  rw [ht]
  rfl

theorem foundLine_ne (n : Nat) (l : String) (hl : l.data.head? = some '-') :
    ¬ l = "Found on " ++ toString n ++ " platform(s)" := by
  obtain ⟨t, ht⟩ := foundLine_data n
  intro h
  rw [h, ht] at hl
  simp at hl

/-- C5: `UsernameExposure` prints exactly one exposure-level line, HIGH from 5 platforms,
MODERATE from 2 to 4, LOW below 2; the two identity-linking lines are printed exactly
from 2 platforms and the impersonation line exactly from 4. -/
theorem usernameExposure_spec (found : List String) :
    (UsernameExposure found).filter isLevelLine = [levelLineOf found.length] ∧
    ("- Reusing the same username allows strangers to link profiles."
        ∈ UsernameExposure found ↔ 2 ≤ found.length) ∧
    ("- This can reveal habits, interests, or identity patterns."
        ∈ UsernameExposure found ↔ 2 ≤ found.length) ∧
    ("- High reuse increases impersonation and scam risk."
        ∈ UsernameExposure found ↔ 4 ≤ found.length) ∧
    UsernameExposure [] =
      ["\n[ Username Exposure ]", "Found on 0 platform(s)", "Exposure Level: LOW"] ∧
    UsernameExposure ["GitHub", "Reddit", "Medium"] =
      ["\n[ Username Exposure ]", "Found on 3 platform(s)", "Exposure Level: MODERATE",
       "- Reusing the same username allows strangers to link profiles.",
       "- This can reveal habits, interests, or identity patterns."] ∧
    UsernameExposure ["GitHub", "Twitter/X", "Instagram", "Reddit", "Medium"] =
      ["\n[ Username Exposure ]", "Found on 5 platform(s)", "Exposure Level: HIGH",
       "- Reusing the same username allows strangers to link profiles.",
       "- This can reveal habits, interests, or identity patterns.",
       "- High reuse increases impersonation and scam risk."] := by
  refine ⟨?_, ?_, ?_, ?_, by decide, by decide, by decide⟩
  all_goals
    have hn := foundLine_not_level found.length
    have h1 := foundLine_ne found.length
      "- Reusing the same username allows strangers to link profiles." (by decide)
    have h2 := foundLine_ne found.length
      "- This can reveal habits, interests, or identity patterns." (by decide)
    have h3 := foundLine_ne found.length
      "- High reuse increases impersonation and scam risk." (by decide)
    simp only [UsernameExposure, levelLineOf]
    generalize found.length = count at *
    by_cases c5 : 5 ≤ count
    · have c2 : 2 ≤ count := by omega
      have c4 : 4 ≤ count := by omega
      simp [c5, c2, c4, List.filter_cons, hn, h1, h2, h3]
      try decide
    · by_cases c4 : 4 ≤ count
      · have c2 : 2 ≤ count := by omega
        have c5' : count < 5 := by omega
        simp [c5, c2, c4, c5', List.filter_cons, hn, h1, h2, h3]
        try decide
      · by_cases c2 : 2 ≤ count
        · have c5' : count < 5 := by omega
          simp [c5, c2, c4, c5', List.filter_cons, hn, h1, h2, h3]
          try decide
        · simp [c5, c2, c4, List.filter_cons, hn, h1, h2, h3]
          try decide

theorem networkLine_data (x : String) :
    ("Network Type: " ++ x).data = 'N' :: ("etwork Type: " ++ x).data :=
  rfl

theorem recordLine_data (h : String) :
    (" - " ++ h).data = ' ' :: ("- " ++ h).data :=
  rfl

theorem recordLine_eq (h : String) : " -" ++ " " ++ h = " - " ++ h := by
  rw [String.ext_iff]
  rfl

theorem head_ne_of_eq {l m : String} {a b : Char} {s t : List Char} (hl : l.data = a :: s)
    (hm : m.data = b :: t) (hab : a ≠ b) : l ≠ m := by
  intro h
  rw [h, hm] at hl
  exact hab (List.cons.inj hl).1.symm

theorem isLevelLine_of_head {l : String} {a : Char} {s : List Char} (hl : l.data = a :: s)
    (ha : a ≠ 'E') : isLevelLine l = false := by
  unfold isLevelLine
  rw [hl]
  have : "Exposure Level:".data = 'E' :: "xposure Level:".data := rfl
  rw [this]
  simp [List.isPrefixOf, Ne.symm ha]

theorem ispWarning_not_mem_records (w : String) (hw : w ∈ ispWarning) (rdns : List String) :
    w ∉ rdns.map (fun h => " - " ++ h) := by
  intro hmem
  obtain ⟨h, _, hh⟩ := List.mem_map.mp hmem
  have hd : w.data.head? = some '-' := by
    simp only [ispWarning, List.mem_cons, List.mem_singleton, List.not_mem_nil, or_false] at hw
    rcases hw with rfl | rfl <;> decide
  rw [← hh, recordLine_data] at hd
  simp at hd

theorem ispWarning_ne_network (w : String) (hw : w ∈ ispWarning) (x : String) :
    w ≠ "Network Type: " ++ x := by
  intro h
  have hd : w.data.head? = some '-' := by
    simp only [ispWarning, List.mem_cons, List.mem_singleton, List.not_mem_nil, or_false] at hw
    rcases hw with rfl | rfl <;> decide
  rw [h, networkLine_data] at hd
  simp at hd

/-- C6: `IPExposure` prints the header and the network type, then, without records, the
no-records message and level LOW, and with records the records in order, level MODERATE
and the infrastructure warning; the ISP/region warning lines follow exactly when
`IPNetworkType ip` is the public type, whatever the records. -/
theorem ipExposure_spec (ip : String) (rdns : List String) :
    IPExposure ip rdns =
      ["\n[ IP Exposure ]", "Network Type: " ++ IPNetworkType ip] ++
      (if rdns = [] then ["No reverse DNS records found.", "Exposure Level: LOW"]
       else ["Reverse DNS Records Found:"] ++ rdns.map (fun h => " - " ++ h) ++
         ["Exposure Level: MODERATE", "- Reverse DNS can reveal infrastructure patterns."]) ++
      (if IPNetworkType ip = "Public IP (ISP / Hosting Provider)" then ispWarning else []) ∧
    (IPExposure ip rdns).filter isLevelLine =
      [if rdns = [] then "Exposure Level: LOW" else "Exposure Level: MODERATE"] ∧
    (∀ w ∈ ispWarning,
      w ∈ IPExposure ip rdns ↔ IPNetworkType ip = "Public IP (ISP / Hosting Provider)") := by
  have hnet : "Network Type:" ++ " " ++ IPNetworkType ip = "Network Type: " ++ IPNetworkType ip := by
    rw [String.ext_iff]
    rfl
  have hrec : (fun h : String => " -" ++ " " ++ h) = (fun h => " - " ++ h) := by
    funext h
    exact recordLine_eq h
  have heq : IPExposure ip rdns =
      ["\n[ IP Exposure ]", "Network Type:" ++ " " ++ IPNetworkType ip] ++
      (if rdns = [] then ["No reverse DNS records found.", "Exposure Level: LOW"]
       else ["Reverse DNS Records Found:"] ++ rdns.map (fun h => " -" ++ " " ++ h) ++
         ["Exposure Level: MODERATE", "- Reverse DNS can reveal infrastructure patterns."]) ++
      (if IPNetworkType ip = "Public IP (ISP / Hosting Provider)" then ispWarning else []) := by
    unfold IPExposure ispWarning
    cases rdns with
    | nil => by_cases hp : IPNetworkType ip = "Public IP (ISP / Hosting Provider)" <;> simp [hp]
    | cons a t => by_cases hp : IPNetworkType ip = "Public IP (ISP / Hosting Provider)" <;> simp [hp]
  rw [hnet, hrec] at heq
  have hlvl_net : isLevelLine ("Network Type: " ++ IPNetworkType ip) = false :=
    isLevelLine_of_head (networkLine_data _) (by decide)
  have hlvl_rec : ∀ l ∈ rdns.map (fun h => " - " ++ h), isLevelLine l = false := by
    intro l hl
    obtain ⟨h, _, rfl⟩ := List.mem_map.mp hl
    exact isLevelLine_of_head (recordLine_data h) (by decide)
  have hfil : (rdns.map (fun h => " - " ++ h)).filter isLevelLine = [] := by
    rw [List.filter_eq_nil_iff]
    intro l hl
    simp [hlvl_rec l hl]
  refine ⟨heq, ?_, ?_⟩
  · rw [heq]
    have e1 : isLevelLine "\n[ IP Exposure ]" = false := by decide
    have e2 : isLevelLine "No reverse DNS records found." = false := by decide
    have e3 : isLevelLine "Exposure Level: LOW" = true := by decide
    have e4 : isLevelLine "Reverse DNS Records Found:" = false := by decide
    have e5 : isLevelLine "Exposure Level: MODERATE" = true := by decide
    have e6 : isLevelLine "- Reverse DNS can reveal infrastructure patterns." = false := by
      decide
    have e7 : ispWarning.filter isLevelLine = [] := by decide
    have e8 : (if IPNetworkType ip = "Public IP (ISP / Hosting Provider)" then ispWarning
        else []).filter isLevelLine = [] := by
      split
      · exact e7
      · rfl
    by_cases hr : rdns = [] <;>
    simp only [hr, e8, if_true, if_false, List.filter_cons, List.filter_append, hlvl_net, hfil, e1,
      e2, e3, e4, e5, e6, e7, List.cons_append, List.nil_append, List.append_nil,
      List.filter_nil, Bool.false_eq_true, not_false_eq_true]
  · intro w hw
    rw [heq]
    have hr := ispWarning_not_mem_records w hw rdns
    have hn := ispWarning_ne_network w hw (IPNetworkType ip)
    have e1 : w ≠ "\n[ IP Exposure ]" := by
      simp only [ispWarning, List.mem_cons, List.mem_singleton, List.not_mem_nil, or_false] at hw
      rcases hw with rfl | rfl <;> decide
    have e2 : w ≠ "No reverse DNS records found." ∧ w ≠ "Exposure Level: LOW" ∧
        w ≠ "Reverse DNS Records Found:" ∧ w ≠ "Exposure Level: MODERATE" ∧
        w ≠ "- Reverse DNS can reveal infrastructure patterns." := by
      simp only [ispWarning, List.mem_cons, List.mem_singleton, List.not_mem_nil, or_false] at hw
      rcases hw with rfl | rfl <;> decide
    obtain ⟨e2, e3, e4, e5, e6⟩ := e2
    by_cases hp : IPNetworkType ip = "Public IP (ISP / Hosting Provider)"
    · simp only [if_pos hp, List.mem_append, hw, or_true, true_iff]
      exact hp
    · by_cases hrd : rdns = []
      · simp only [hp, hrd, if_true, if_false, List.append_nil, List.mem_append, List.mem_cons,
          List.mem_singleton, List.not_mem_nil, or_false, e1, hn, e2, e3, or_self]
      · simp only [hp, hrd, if_false, List.append_nil, List.mem_append, List.mem_cons,
          List.mem_singleton, List.not_mem_nil, or_false, e1, hn, e4, e5, e6, hr, or_self]

/-! ## The network type -/

theorem isPrivate_eq (b : IP) (hlen : b.length = 16) : IP.IsPrivate b = inPrivateRange b := by
  obtain ⟨b0, b1, b2, b3, b4, b5, b6, b7, b8, b9, b10, b11, b12, b13, b14, b15, hip⟩ := list16 b hlen
  subst hip
  unfold IP.IsPrivate To4 inPrivateRange
  have h4 : ¬ ([b0, b1, b2, b3, b4, b5, b6, b7, b8, b9, b10, b11, b12, b13, b14, b15].length = 4) := by
    simp
  rw [if_neg h4]
  by_cases hm : isMapped4 [b0, b1, b2, b3, b4, b5, b6, b7, b8, b9, b10, b11, b12, b13, b14, b15]
      = true
  · have e1 : b13 / 16 * 16 = 16 ↔ (16 ≤ b13 ∧ b13 ≤ 31) := by omega
    simp only [hlen, hm, and_self, if_true, List.drop_succ_cons, List.drop_zero,
      List.getD_cons_succ, List.getD_cons_zero]
    rw [Bool.eq_iff_iff]
    simp only [Bool.or_eq_true, Bool.and_eq_true, beq_iff_eq, decide_eq_true_eq, e1]
    tauto
  · have e1 : b0 / 2 * 2 = 252 ↔ (b0 = 252 ∨ b0 = 253) := by omega
    simp only [hlen, hm, and_false, if_false, List.getD_cons_zero, Bool.false_eq_true]
    rw [Bool.eq_iff_iff]
    simp [e1]

/-- C4 (refuted): the loopback address `127.0.0.1` parses and its network type is the
public one, not the private one. -/
theorem networkType_loopback_not_private :
    ParseIP "127.0.0.1" ≠ none ∧
    IPNetworkType "127.0.0.1" = "Public IP (ISP / Hosting Provider)" ∧
    IPNetworkType "127.0.0.1" ≠ "Private IP (Local Network)" := by
  decide

/-- C4 (amended): `IPNetworkType` gives Unknown when its argument does not parse, Private
when the parsed address is in an RFC 1918 range (as an IPv4 or IPv4-mapped address) or
in `fc00::/7`, and Public for every other address; the loopback and link-local
addresses are among the latter. -/
theorem networkType_spec (ip : String) :
    IPNetworkType ip =
      (match ParseIP ip with
       | none => "Unknown"
       | some b =>
         if inPrivateRange b then "Private IP (Local Network)"
         else "Public IP (ISP / Hosting Provider)") ∧
    IPNetworkType "not an ip" = "Unknown" ∧
    IPNetworkType "10.1.2.3" = "Private IP (Local Network)" ∧
    IPNetworkType "172.31.255.255" = "Private IP (Local Network)" ∧
    IPNetworkType "192.168.0.1" = "Private IP (Local Network)" ∧
    IPNetworkType "::ffff:10.0.0.1" = "Private IP (Local Network)" ∧
    IPNetworkType "fd12:3456::1" = "Private IP (Local Network)" ∧
    IPNetworkType "127.0.0.1" = "Public IP (ISP / Hosting Provider)" ∧
    IPNetworkType "169.254.10.20" = "Public IP (ISP / Hosting Provider)" ∧
    IPNetworkType "::1" = "Public IP (ISP / Hosting Provider)" ∧
    IPNetworkType "fe80::1" = "Public IP (ISP / Hosting Provider)" ∧
    IPNetworkType "8.8.8.8" = "Public IP (ISP / Hosting Provider)" := by
  refine ⟨?_, by decide, by decide, by decide, by decide, by decide, by decide, by decide,
    by decide, by decide, by decide, by decide⟩
  unfold IPNetworkType
  cases h : ParseIP ip with
  | none => rfl
  | some b =>
    simp only []
    rw [isPrivate_eq b (parseIP_bytes ip b h).1]

/-! ## Idempotence of the validation -/

/-- C10: `ValidatePublicInput` returns its own result again on the value of that result;
the value of a result of type IP parses as an IP address, so its network type is not
Unknown, and the value of a result of type username does not parse as an IP address. -/
theorem validate_idempotent (raw : String) (r : ValidationResult)
    (h : ValidatePublicInput raw = Except.ok r) :
    ValidatePublicInput r.Value = Except.ok r ∧
    (r.Typ = InputType.InputIP →
      ParseIP r.Value ≠ none ∧ IPNetworkType r.Value ≠ "Unknown") ∧
    (r.Typ = InputType.InputUsername → ParseIP r.Value = none) := by
  rcases validate_cases raw with h1 | h1 | h1 | h1
  · rw [h1.2] at h; cases h
  · obtain ⟨_, ip, hip, hv⟩ := h1
    rw [hv] at h
    cases h
    have hb := parseIP_bytes _ ip hip
    have hrt := parseIP_string ip hb
    obtain ⟨hne, hsp⟩ := ipString_chars ip hb
    have htrim : TrimSpace (IP.String ip) = IP.String ip := by
      rw [String.ext_iff]
      exact trimSpaceChars_of_no_space _ hsp
    have hne' : IP.String ip ≠ "" := by
      intro he
      exact hne ((string_eq_empty_iff _).mp he)
    refine ⟨?_, fun _ => ⟨?_, ?_⟩, fun hc => (by cases hc)⟩
    · unfold ValidatePublicInput
      simp [htrim, hne', hrt]
    · simp [hrt]
    · unfold IPNetworkType
      simp only [hrt]
      split <;> decide
  · obtain ⟨hne, hip, hm, hv⟩ := h1
    rw [hv] at h
    cases h
    have htrim := trimSpace_of_usernameRegex _ hm
    refine ⟨?_, fun hc => (by cases hc), fun _ => hip⟩
    unfold ValidatePublicInput
    simp [htrim, hne, hip, hm]
  · rw [h1.2.2.2] at h; cases h

/-- C10 at an IPv6 address written with capitals and zeros, and at a user name. -/
theorem validate_idempotent_witness :
    ValidatePublicInput "2001:db8::1" =
      Except.ok ⟨InputType.InputIP, "2001:db8::1"⟩ ∧
    ValidatePublicInput "user.name_1" =
      Except.ok ⟨InputType.InputUsername, "user.name_1"⟩ :=
  ⟨(validate_idempotent " 2001:0DB8:0:0:0:0:0:1 " ⟨InputType.InputIP, "2001:db8::1"⟩
      rfl).1,
   (validate_idempotent "  user.name_1\n" ⟨InputType.InputUsername, "user.name_1"⟩
      rfl).1⟩

end Digital
